import Mathlib

/-!
Verification of the MAPIE example scripts.

This file gives a shallow embedding of the two example scripts of the
repository:

* examples/plot_barber2020_simulations.py : the Monte Carlo simulation
  harness PIs_vs_dimensions together with the panel-data computation of
  plot_simulation_results;
* examples/plot_homoscedastic_1d_data.py : the seeded 1D data generator
  get_homoscedastic_data.

The process-wide numpy random source is modelled as a state consisting of a
stream of already-sampled standard draws (a function from positions to
values) together with a cursor position; every numpy sampling call consumes
a contiguous block of positions.  The external MapieRegressor estimator is
modelled as a black-box function from its construction arguments and the
fit/predict data to either a list of prediction rows (point prediction,
lower bound, upper bound) or an error, matching the fit-then-predict call
pattern of the scripts.  Floating point numbers are modelled by an
arbitrary linear ordered field (rationals for concrete evaluations, reals
where the square root matters); numpy sqrt is passed in as a function
parameter sqrtFn and instantiated with Real.sqrt where its mathematical
properties are at stake.
-/

namespace MapieExamples

/-- The process-wide random source: an infinite stream of pre-sampled draws
and the current read position. -/
structure RngState (α : Type) where
  stream : Nat → α
  pos : Nat

/-- Advance the read cursor by n positions. -/
def advance {α : Type} (n : Nat) (s : RngState α) : RngState α :=
  { s with pos := s.pos + n }

variable {α : Type} {ε : Type}

/-- np.random.normal(size=n): consume n draws from the source. -/
def npRandomNormalVec (n : Nat) (s : RngState α) : List α × RngState α :=
  ((List.range n).map fun i => s.stream (s.pos + i), advance n s)

/-- np.random.normal(size=(r, c)): consume r*c draws from the source, in
row-major order as numpy does. -/
def npRandomNormalMat (r c : Nat) (s : RngState α) : List (List α) × RngState α :=
  ((List.range r).map fun i => (List.range c).map fun j => s.stream (s.pos + (i * c + j)),
   advance (r * c) s)

/-- numpy dot product of two vectors. -/
def npDot [LinearOrderedField α] (x y : List α) : α :=
  (List.zipWith (fun a b => a * b) x y).sum

/-- numpy .mean() of a one-dimensional array. -/
def npMean [LinearOrderedField α] (l : List α) : α :=
  l.sum / (l.length : α)

/-- The value of a successful result, with a default for the error case. -/
def okD {β : Type} (x : Except ε β) (d : β) : β :=
  match x with
  | .ok v => v
  | .error _ => d

/-- The first error occurring in a list of results. -/
def firstError {β : Type} : List (Except ε β) → Option ε
  | [] => none
  | .ok _ :: rest => firstError rest
  | .error e :: _ => some e

@[simp] theorem advance_stream (n : Nat) (s : RngState α) :
    (advance n s).stream = s.stream := rfl

@[simp] theorem advance_pos (n : Nat) (s : RngState α) :
    (advance n s).pos = s.pos + n := rfl

@[simp] theorem advance_zero (s : RngState α) : advance 0 s = s := rfl

theorem advance_advance (a b : Nat) (s : RngState α) :
    advance b (advance a s) = advance (a + b) s := by
  simp [advance, Nat.add_assoc]

@[simp] theorem okD_ok {β : Type} (v d : β) : okD (ε := ε) (.ok v) d = v := rfl

@[simp] theorem okD_error {β : Type} (e : ε) (d : β) : okD (.error e) d = d := rfl

theorem mem_of_getElem?_eq_some {β : Type} {l : List β} {k : Nat} {a : β}
    (h : l[k]? = some a) : a ∈ l := by
  have hk : k < l.length := by
    by_contra hk
    rw [List.getElem?_eq_none (Nat.le_of_not_lt hk)] at h
    cases h
  rw [List.getElem?_eq_getElem hk] at h
  cases h
  exact List.getElem_mem hk

@[simp] theorem firstError_nil {β : Type} :
    firstError ([] : List (Except ε β)) = none := rfl

@[simp] theorem firstError_cons_ok {β : Type} (v : β) (l : List (Except ε β)) :
    firstError (.ok v :: l) = firstError l := rfl

@[simp] theorem firstError_cons_error {β : Type} (e : ε) (l : List (Except ε β)) :
    firstError (.error e :: l) = some e := rfl

theorem firstError_append {β : Type} (l₁ l₂ : List (Except ε β)) :
    firstError (l₁ ++ l₂) =
      match firstError l₁ with
      | some e => some e
      | none => firstError l₂ := by
  induction l₁ with
  | nil => rfl
  | cons x rest ih => cases x <;> simp [firstError, ih]

namespace Barber2020

/-- Number of training samples, examples/plot_barber2020_simulations.py line 73. -/
def n_train : Nat := 100

/-- Number of test samples, line 74. -/
def n_test : Nat := 100

/-- Signal-to-noise ratio, line 75. -/
def SNR : Nat := 10

/-- Line 87: beta_norm = np.sqrt((beta**2).sum()). -/
def betaNorm [LinearOrderedField α] (sqrtFn : α → α) (beta0 : List α) : α :=
  sqrtFn ((beta0.map fun b => b ^ 2).sum)

/-- Line 88: beta = beta/beta_norm*np.sqrt(SNR). -/
def normalizeBeta [LinearOrderedField α] (sqrtFn : α → α) (beta0 : List α) : List α :=
  beta0.map fun b => b / betaNorm sqrtFn beta0 * sqrtFn (SNR : α)

/-- The per-trial dataset produced by lines 86-94. -/
structure TrialData (α : Type) where
  beta : List α
  X_train : List (List α)
  y_train : List α
  X_test : List (List α)
  y_test : List α

/-- Lines 86-94 of PIs_vs_dimensions: draw the coefficient vector, normalize
it, draw the training design matrix, the training noise, the test noise and
the test design matrix in this order, and form the noisy targets. -/
def genTrialData [LinearOrderedField α] (sqrtFn : α → α) (dimension : Nat)
    (s : RngState α) : TrialData α × RngState α :=
  let p1 := npRandomNormalVec dimension s
  let beta := normalizeBeta sqrtFn p1.1
  let p2 := npRandomNormalMat n_train dimension p1.2
  let p3 := npRandomNormalVec n_train p2.2
  let p4 := npRandomNormalVec n_test p3.2
  let y_train := List.zipWith (fun a b => a + b) (p2.1.map fun row => npDot row beta) p3.1
  let p5 := npRandomNormalMat n_test dimension p4.2
  let y_test := List.zipWith (fun a b => a + b) (p5.1.map fun row => npDot row beta) p4.1
  (⟨beta, p2.1, y_train, p5.1, y_test⟩, p5.2)

/-- The constructor arguments of MapieRegressor, lines 97-104. -/
structure MapieArgs (α : Type) where
  alpha : α
  method : String
  n_splits : Nat
  shuffle : Bool
  return_pred : String

/-- The external estimator as a black box: from the constructor arguments,
the fit data and the predict data to prediction rows (prediction, lower
bound, upper bound) or an error raised by fit or predict. -/
abbrev Estimator (α ε : Type) :=
  MapieArgs α → List (List α) → List α → List (List α) → Except ε (List (α × α × α))

/-- Lines 96-111 for one method: construct the estimator with the fixed
arguments of lines 97-104, fit on the training data, predict on the test
data, and compute the empirical coverage (line 107-110) and the mean
interval width (line 111).  Columns 1 and 2 of y_preds are the second and
third components of each row. -/
def methodEval [LinearOrderedField α] (est : Estimator α ε) (alpha : α)
    (method : String) (td : TrialData α) : Except ε (α × α) :=
  match est ⟨alpha, method, 10, false, "ensemble"⟩ td.X_train td.y_train td.X_test with
  | .error e => .error e
  | .ok y_preds =>
      .ok (npMean (List.zipWith
             (fun p y => if p.2.1 ≤ y ∧ y ≤ p.2.2 then (1 : α) else 0) y_preds td.y_test),
           npMean (y_preds.map fun p => p.2.2 - p.2.1))

/-- One cell of the result table: the per-trial coverage and width arrays. -/
structure Cell (α : Type) where
  coverage : List α
  width_mean : List α

/-- A nested dictionary keyed like results[method][dimension], with cell
type β. -/
abbrev TableOf (β : Type) := List (String × List (Nat × β))

/-- The nested dictionary results[method][dimension] of lines 76-83. -/
abbrev ResultTable (α : Type) := TableOf (Cell α)

/-- Lines 76-83: the initial table with np.empty(n_trial) arrays; the junk
parameter stands for the uninitialized contents of np.empty. -/
def initTable (methods : List String) (dimensions : List Nat) (n_trial : Nat)
    (junk : α) : ResultTable α :=
  methods.map fun method =>
    (method, dimensions.map fun dimension =>
      (dimension, ⟨List.replicate n_trial junk, List.replicate n_trial junk⟩))

/-- Dictionary lookup results[method][dimension]. -/
def getCell {β : Type} (tbl : TableOf β) (method : String) (dimension : Nat) :
    Option β :=
  (tbl.find? fun p => p.1 == method).bind fun me =>
    (me.2.find? fun p => p.1 == dimension).map fun de => de.2

/-- In-place update of the cell at results[method][dimension]. -/
def modifyCell {β : Type} (tbl : TableOf β) (method : String) (dimension : Nat)
    (f : β → β) : TableOf β :=
  tbl.map fun entry =>
    if entry.1 = method then
      (entry.1, entry.2.map fun q => if q.1 = dimension then (q.1, f q.2) else q)
    else entry

/-- The content of the writes of lines 112-113 on one cell:
cell["coverage"][trial] = cov; cell["width_mean"][trial] = wid. -/
def updCell (trial : Nat) (v : α × α) (c : Cell α) : Cell α :=
  ⟨c.coverage.set trial v.1, c.width_mean.set trial v.2⟩

/-- Lines 112-113: results[method][dimension]["coverage"][trial] = coverage
and results[method][dimension]["width_mean"][trial] = width_mean. -/
def setCell (tbl : ResultTable α) (method : String) (dimension : Nat)
    (trial : Nat) (cov wid : α) : ResultTable α :=
  tbl.map fun entry =>
    if entry.1 = method then
      (entry.1, entry.2.map fun q =>
        if q.1 = dimension then (q.1, updCell trial (cov, wid) q.2) else q)
    else entry

/-- The innermost loop of lines 96-113 over the methods list. -/
def methodsLoop [LinearOrderedField α] (est : Estimator α ε) (alpha : α)
    (td : TrialData α) (dimension trial : Nat) :
    List String → ResultTable α → Except ε (ResultTable α)
  | [], tbl => .ok tbl
  | method :: rest, tbl =>
    match methodEval est alpha method td with
    | .error e => .error e
    | .ok v =>
        methodsLoop est alpha td dimension trial rest
          (setCell tbl method dimension trial v.1 v.2)

/-- The middle loop of line 85 over the trial indices. -/
def trialsLoop [LinearOrderedField α] (est : Estimator α ε) (alpha : α)
    (sqrtFn : α → α) (methods : List String) (dimension : Nat) :
    List Nat → ResultTable α → RngState α → Except ε (ResultTable α × RngState α)
  | [], tbl, s => .ok (tbl, s)
  | trial :: rest, tbl, s =>
    let p := genTrialData sqrtFn dimension s
    match methodsLoop est alpha p.1 dimension trial methods tbl with
    | .error e => .error e
    | .ok tbl2 => trialsLoop est alpha sqrtFn methods dimension rest tbl2 p.2

/-- The outer loop of line 84 over the dimensions list. -/
def dimsLoop [LinearOrderedField α] (est : Estimator α ε) (alpha : α)
    (sqrtFn : α → α) (methods : List String) (n_trial : Nat) :
    List Nat → ResultTable α → RngState α → Except ε (ResultTable α × RngState α)
  | [], tbl, s => .ok (tbl, s)
  | dimension :: rest, tbl, s =>
    match trialsLoop est alpha sqrtFn methods dimension (List.range n_trial) tbl s with
    | .error e => .error e
    | .ok p => dimsLoop est alpha sqrtFn methods n_trial rest p.1 p.2

/-- PIs_vs_dimensions, lines 34-114: build the initial table and run the
nested loops, threading the random source state and returning it alongside
the table. -/
def PIs_vs_dimensions [LinearOrderedField α] (est : Estimator α ε)
    (methods : List String) (alpha : α) (n_trial : Nat) (dimensions : List Nat)
    (sqrtFn : α → α) (junk : α) (s : RngState α) :
    Except ε (ResultTable α × RngState α) :=
  dimsLoop est alpha sqrtFn methods n_trial dimensions
    (initTable methods dimensions n_trial junk) s

/-- Number of random draws one trial of a given dimension consumes, in the
order of lines 86-93: the coefficient vector, the training design matrix,
the training noise, the test noise, the test design matrix. -/
def consPerTrial (dimension : Nat) : Nat :=
  dimension + n_train * dimension + n_train + n_test + n_test * dimension

/-- Number of random draws a whole run consumes. -/
def totalCons (n_trial : Nat) (dimensions : List Nat) : Nat :=
  (dimensions.map fun d => n_trial * consPerTrial d).sum

/-- Number of random draws consumed before the pass over the first
occurrence of a given dimension starts. -/
def offsetBefore (n_trial : Nat) : List Nat → Nat → Nat
  | [], _ => 0
  | d :: rest, d' =>
      if d = d' then 0 else n_trial * consPerTrial d + offsetBefore n_trial rest d'

/-- The (coverage, width_mean) pair the trial starting at random state s
records for a method, with (0, 0) standing in for a failed call. -/
def trialValue [LinearOrderedField α] (est : Estimator α ε) (alpha : α)
    (sqrtFn : α → α) (dimension : Nat) (method : String) (s : RngState α) : α × α :=
  okD (methodEval est alpha method (genTrialData sqrtFn dimension s).1) (0, 0)

/-- The successive writes that a list of trial indices performs on the cell
of one method, starting from random state s. -/
def applyTrialWrites [LinearOrderedField α] (est : Estimator α ε) (alpha : α)
    (sqrtFn : α → α) (dimension : Nat) (method : String) :
    List Nat → RngState α → Cell α → Cell α
  | [], _, c => c
  | t :: rest, s, c =>
      applyTrialWrites est alpha sqrtFn dimension method rest
        (advance (consPerTrial dimension) s)
        (updCell t (trialValue est alpha sqrtFn dimension method s) c)

/-- The outcomes of the estimator calls of the trials of one dimension, in
execution order. -/
def trialCalls [LinearOrderedField α] (est : Estimator α ε) (alpha : α)
    (sqrtFn : α → α) (methods : List String) (dimension : Nat) :
    List Nat → RngState α → List (Except ε (α × α))
  | [], _ => []
  | _ :: rest, s =>
      (methods.map fun m => methodEval est alpha m (genTrialData sqrtFn dimension s).1)
        ++ trialCalls est alpha sqrtFn methods dimension rest
             (advance (consPerTrial dimension) s)

/-- The outcomes of all estimator calls of a run, in execution order. -/
def dimCalls [LinearOrderedField α] (est : Estimator α ε) (alpha : α)
    (sqrtFn : α → α) (methods : List String) (n_trial : Nat) :
    List Nat → RngState α → List (Except ε (α × α))
  | [], _ => []
  | d :: rest, s =>
      trialCalls est alpha sqrtFn methods d (List.range n_trial) s
        ++ dimCalls est alpha sqrtFn methods n_trial rest
             (advance (n_trial * consPerTrial d) s)

theorem genTrialData_state [LinearOrderedField α] (sqrtFn : α → α) (dimension : Nat)
    (s : RngState α) :
    (genTrialData sqrtFn dimension s).2 = advance (consPerTrial dimension) s := by
  cases s with
  | mk g p =>
      simp only [genTrialData, npRandomNormalVec, npRandomNormalMat, advance, consPerTrial]
      congr 1
      omega


theorem blankInner_find? {β : Type} (dims : List Nat) (blank : β) (d : Nat) :
    ((dims.map fun dimension => (dimension, blank)).find? fun p => p.1 == d) =
      if d ∈ dims then some (d, blank) else none := by
  induction dims with
  | nil => simp
  | cons d0 rest ih =>
      by_cases h : d0 = d
      · subst h
        rw [List.map_cons, List.find?_cons_of_pos _ (by simp)]
        simp
      · rw [List.map_cons,
          List.find?_cons_of_neg _ (by simp [beq_eq_false_iff_ne.mpr h]), ih]
        simp [List.mem_cons, Ne.symm h]

theorem getCell_blankTable {β : Type} (methods : List String) (dims : List Nat)
    (blank : β) (m : String) (d : Nat) :
    getCell (methods.map fun method =>
        (method, dims.map fun dimension => (dimension, blank))) m d =
      if m ∈ methods ∧ d ∈ dims then some blank else none := by
  induction methods with
  | nil => simp [getCell]
  | cons m0 rest ih =>
      by_cases h : m0 = m
      · subst h
        rw [List.map_cons, getCell, List.find?_cons_of_pos _ (by simp)]
        simp only [Option.some_bind]
        rw [blankInner_find?]
        by_cases hd : d ∈ dims <;> simp [hd]
      · rw [List.map_cons, getCell,
          List.find?_cons_of_neg _ (by simp [beq_eq_false_iff_ne.mpr h])]
        rw [getCell] at ih
        rw [ih]
        simp [List.mem_cons, Ne.symm h]

theorem getCell_initTable (methods : List String) (dims : List Nat) (n : Nat)
    (junk : α) (m : String) (d : Nat) :
    getCell (initTable methods dims n junk) m d =
      if m ∈ methods ∧ d ∈ dims then
        some ⟨List.replicate n junk, List.replicate n junk⟩
      else none :=
  getCell_blankTable methods dims
    (⟨List.replicate n junk, List.replicate n junk⟩ : Cell α) m d

theorem innerModify_find?_same {β : Type} (inner : List (Nat × β)) (d : Nat)
    (f : β → β) :
    ((inner.map fun q =>
        if q.1 = d then (q.1, f q.2) else q).find? fun p => p.1 == d) =
      (inner.find? fun p => p.1 == d).map fun q => (q.1, f q.2) := by
  induction inner with
  | nil => simp
  | cons q0 rest ih =>
      by_cases h : q0.1 = d
      · rw [List.map_cons, if_pos h,
          List.find?_cons_of_pos _ (by simp [h]),
          List.find?_cons_of_pos _ (by simp [h])]
        simp
      · rw [List.map_cons, if_neg h,
          List.find?_cons_of_neg _ (by simp [beq_eq_false_iff_ne.mpr h]),
          List.find?_cons_of_neg _ (by simp [beq_eq_false_iff_ne.mpr h]), ih]

theorem innerModify_find?_ne {β : Type} (inner : List (Nat × β)) (d : Nat)
    (f : β → β) (d' : Nat) (h : d' ≠ d) :
    ((inner.map fun q =>
        if q.1 = d then (q.1, f q.2) else q).find? fun p => p.1 == d') =
      inner.find? fun p => p.1 == d' := by
  induction inner with
  | nil => simp
  | cons q0 rest ih =>
      by_cases hq : q0.1 = d
      · rw [List.map_cons, if_pos hq,
          List.find?_cons_of_neg _
            (by simp [beq_eq_false_iff_ne.mpr (hq ▸ Ne.symm h)]),
          List.find?_cons_of_neg _
            (by simp [beq_eq_false_iff_ne.mpr (hq ▸ Ne.symm h)]), ih]
      · by_cases hq' : q0.1 = d'
        · rw [List.map_cons, if_neg hq,
            List.find?_cons_of_pos _ (by simp [hq']),
            List.find?_cons_of_pos _ (by simp [hq'])]
        · rw [List.map_cons, if_neg hq,
            List.find?_cons_of_neg _ (by simp [beq_eq_false_iff_ne.mpr hq']),
            List.find?_cons_of_neg _ (by simp [beq_eq_false_iff_ne.mpr hq']), ih]

theorem getCell_modifyCell_same {β : Type} (tbl : TableOf β) (m : String)
    (d : Nat) (f : β → β) :
    getCell (modifyCell tbl m d f) m d = (getCell tbl m d).map f := by
  induction tbl with
  | nil => simp [modifyCell, getCell]
  | cons e rest ih =>
      by_cases h : e.1 = m
      · rw [modifyCell, List.map_cons, if_pos h, getCell,
          List.find?_cons_of_pos _ (by simp [h]), getCell,
          List.find?_cons_of_pos _ (by simp [h])]
        simp only [Option.some_bind]
        rw [innerModify_find?_same]
        cases e.2.find? fun p => p.1 == d <;> simp
      · rw [modifyCell, List.map_cons, if_neg h, getCell,
          List.find?_cons_of_neg _ (by simp [beq_eq_false_iff_ne.mpr h]), getCell,
          List.find?_cons_of_neg _ (by simp [beq_eq_false_iff_ne.mpr h])]
        rw [modifyCell, getCell, getCell] at ih
        exact ih

theorem getCell_modifyCell_ne {β : Type} (tbl : TableOf β) (m : String) (d : Nat)
    (f : β → β) (m' : String) (d' : Nat) (h : m' ≠ m ∨ d' ≠ d) :
    getCell (modifyCell tbl m d f) m' d' = getCell tbl m' d' := by
  induction tbl with
  | nil => simp [modifyCell, getCell]
  | cons e rest ih =>
      by_cases he : e.1 = m
      · rcases h with h | h
        · rw [modifyCell, List.map_cons, if_pos he, getCell,
            List.find?_cons_of_neg _
              (by simp [beq_eq_false_iff_ne.mpr (he ▸ Ne.symm h)]), getCell,
            List.find?_cons_of_neg _
              (by simp [beq_eq_false_iff_ne.mpr (he ▸ Ne.symm h)])]
          rw [modifyCell, getCell, getCell] at ih
          exact ih
        · by_cases he' : e.1 = m'
          · rw [modifyCell, List.map_cons, if_pos he, getCell,
              List.find?_cons_of_pos _ (by simp [he']), getCell,
              List.find?_cons_of_pos _ (by simp [he'])]
            simp only [Option.some_bind]
            rw [innerModify_find?_ne _ _ _ _ h]
          · rw [modifyCell, List.map_cons, if_pos he, getCell,
              List.find?_cons_of_neg _ (by simp [beq_eq_false_iff_ne.mpr he']),
              getCell,
              List.find?_cons_of_neg _ (by simp [beq_eq_false_iff_ne.mpr he'])]
            rw [modifyCell, getCell, getCell] at ih
            exact ih
      · by_cases he' : e.1 = m'
        · rw [modifyCell, List.map_cons, if_neg he, getCell,
            List.find?_cons_of_pos _ (by simp [he']), getCell,
            List.find?_cons_of_pos _ (by simp [he'])]
        · rw [modifyCell, List.map_cons, if_neg he, getCell,
            List.find?_cons_of_neg _ (by simp [beq_eq_false_iff_ne.mpr he']),
            getCell,
            List.find?_cons_of_neg _ (by simp [beq_eq_false_iff_ne.mpr he'])]
          rw [modifyCell, getCell, getCell] at ih
          exact ih

theorem setCell_eq_modifyCell (tbl : ResultTable α) (m : String) (d t : Nat)
    (c w : α) :
    setCell tbl m d t c w = modifyCell tbl m d (updCell t (c, w)) := rfl

theorem getCell_setCell_same (tbl : ResultTable α) (m : String) (d t : Nat)
    (c w : α) :
    getCell (setCell tbl m d t c w) m d =
      (getCell tbl m d).map fun cell => updCell t (c, w) cell := by
  rw [setCell_eq_modifyCell]
  exact getCell_modifyCell_same tbl m d (updCell t (c, w))

theorem getCell_setCell_ne (tbl : ResultTable α) (m : String) (d t : Nat)
    (c w : α) (m' : String) (d' : Nat) (h : m' ≠ m ∨ d' ≠ d) :
    getCell (setCell tbl m d t c w) m' d' = getCell tbl m' d' := by
  rw [setCell_eq_modifyCell]
  exact getCell_modifyCell_ne tbl m d (updCell t (c, w)) m' d' h

theorem updCell_updCell (t : Nat) (v v' : α × α) (c : Cell α) :
    updCell t v (updCell t v' c) = updCell t v c := by
  simp [updCell, List.set_set]

variable [LinearOrderedField α]

theorem methodsLoop_error_iff (est : Estimator α ε) (alpha : α) (td : TrialData α)
    (dimension trial : Nat) (ms : List String) (tbl : ResultTable α) (e : ε) :
    methodsLoop est alpha td dimension trial ms tbl = .error e ↔
      firstError (ms.map fun m => methodEval est alpha m td) = some e := by
  induction ms generalizing tbl with
  | nil => simp [methodsLoop]
  | cons m rest ih =>
      simp only [methodsLoop, List.map_cons]
      cases h : methodEval est alpha m td with
      | error e' => simp
      | ok v => simp [ih]

theorem methodsLoop_ok_char (est : Estimator α ε) (alpha : α) (td : TrialData α)
    (dimension trial : Nat) (ms : List String) (tbl : ResultTable α)
    (h : firstError (ms.map fun m => methodEval est alpha m td) = none) :
    ∃ tbl', methodsLoop est alpha td dimension trial ms tbl = .ok tbl' ∧
      ∀ m' d', getCell tbl' m' d' =
        if m' ∈ ms ∧ d' = dimension then
          (getCell tbl m' d').map fun cell =>
            updCell trial (okD (methodEval est alpha m' td) (0, 0)) cell
        else getCell tbl m' d' := by
  induction ms generalizing tbl with
  | nil => exact ⟨tbl, rfl, by simp⟩
  | cons m rest ih =>
      cases hm : methodEval est alpha m td with
      | error e =>
          rw [List.map_cons, hm] at h
          simp at h
      | ok v =>
          rw [List.map_cons, hm, firstError_cons_ok] at h
          obtain ⟨tbl', heq, hchar⟩ := ih (setCell tbl m dimension trial v.1 v.2) h
          refine ⟨tbl', by simp [methodsLoop, hm, heq], ?_⟩
          intro m' d'
          rw [hchar m' d']
          by_cases hd : d' = dimension
          · subst hd
            by_cases hmm : m' = m
            · subst hmm
              by_cases hmem : m' ∈ rest
              · rw [if_pos ⟨hmem, rfl⟩, if_pos ⟨List.mem_cons_self m' rest, rfl⟩,
                  getCell_setCell_same, Option.map_map, hm]
                cases getCell tbl m' d' with
                | none => simp
                | some cell => simp [Function.comp, updCell_updCell]
              · rw [if_neg (by simp [hmem]), if_pos ⟨List.mem_cons_self m' rest, rfl⟩,
                  getCell_setCell_same, hm]
                simp
            · by_cases hmem : m' ∈ rest
              · rw [if_pos ⟨hmem, rfl⟩, if_pos ⟨List.mem_cons_of_mem m hmem, rfl⟩,
                  getCell_setCell_ne _ _ _ _ _ _ _ _ (Or.inl hmm)]
              · rw [if_neg (by simp [hmem]),
                  if_neg (by simp [hmem, hmm]),
                  getCell_setCell_ne _ _ _ _ _ _ _ _ (Or.inl hmm)]
          · rw [if_neg (by simp [hd]), if_neg (by simp [hd]),
              getCell_setCell_ne _ _ _ _ _ _ _ _ (Or.inr hd)]

theorem trialsLoop_error_iff (est : Estimator α ε) (alpha : α) (sqrtFn : α → α)
    (ms : List String) (dim : Nat) (ts : List Nat) (tbl : ResultTable α)
    (s : RngState α) (e : ε) :
    trialsLoop est alpha sqrtFn ms dim ts tbl s = .error e ↔
      firstError (trialCalls est alpha sqrtFn ms dim ts s) = some e := by
  induction ts generalizing tbl s with
  | nil => simp [trialsLoop, trialCalls]
  | cons t rest ih =>
      simp only [trialsLoop, trialCalls]
      rw [firstError_append]
      cases hml : methodsLoop est alpha (genTrialData sqrtFn dim s).1 dim t ms tbl with
      | error e' =>
          rw [(methodsLoop_error_iff est alpha _ dim t ms tbl e').mp hml]
          simp
      | ok tbl2 =>
          have h1 : firstError
              (ms.map fun m => methodEval est alpha m (genTrialData sqrtFn dim s).1) =
              none := by
            cases hfe : firstError
                (ms.map fun m => methodEval est alpha m (genTrialData sqrtFn dim s).1) with
            | none => rfl
            | some e' =>
                rw [(methodsLoop_error_iff est alpha _ dim t ms tbl e').mpr hfe] at hml
                cases hml
          rw [h1, genTrialData_state]
          exact ih tbl2 (advance (consPerTrial dim) s)

theorem trialsLoop_ok_char (est : Estimator α ε) (alpha : α) (sqrtFn : α → α)
    (ms : List String) (dim : Nat) (ts : List Nat) (tbl : ResultTable α)
    (s : RngState α)
    (h : firstError (trialCalls est alpha sqrtFn ms dim ts s) = none) :
    ∃ tbl', trialsLoop est alpha sqrtFn ms dim ts tbl s =
        .ok (tbl', advance (ts.length * consPerTrial dim) s) ∧
      ∀ m' d', getCell tbl' m' d' =
        if m' ∈ ms ∧ d' = dim then
          (getCell tbl m' d').map (applyTrialWrites est alpha sqrtFn dim m' ts s)
        else getCell tbl m' d' := by
  induction ts generalizing tbl s with
  | nil =>
      refine ⟨tbl, by simp [trialsLoop], ?_⟩
      intro m' d'
      by_cases hc : m' ∈ ms ∧ d' = dim
      · rw [if_pos hc]
        cases getCell tbl m' d' <;> simp [applyTrialWrites]
      · rw [if_neg hc]
  | cons t rest ih =>
      rw [trialCalls, firstError_append] at h
      cases hfe : firstError
          (ms.map fun m => methodEval est alpha m (genTrialData sqrtFn dim s).1) with
      | some e' => rw [hfe] at h; cases h
      | none =>
          rw [hfe] at h
          obtain ⟨tbl2, heq2, hchar2⟩ :=
            methodsLoop_ok_char est alpha (genTrialData sqrtFn dim s).1 dim t ms tbl hfe
          obtain ⟨tbl', heq', hchar'⟩ := ih tbl2 (advance (consPerTrial dim) s) h
          refine ⟨tbl', ?_, ?_⟩
          · simp only [trialsLoop, heq2]
            rw [genTrialData_state, heq']
            simp [advance_advance, List.length_cons, Nat.succ_mul, Nat.add_comm]
          · intro m' d'
            rw [hchar' m' d']
            by_cases hc : m' ∈ ms ∧ d' = dim
            · rw [if_pos hc, hchar2 m' d', if_pos hc]
              cases getCell tbl m' d' with
              | none => simp
              | some cell => simp [applyTrialWrites, trialValue, hc.1, hc.2]
            · rw [if_neg hc, hchar2 m' d', if_neg hc, if_neg hc]

theorem dimsLoop_error_iff (est : Estimator α ε) (alpha : α) (sqrtFn : α → α)
    (ms : List String) (n : Nat) (dims : List Nat) (tbl : ResultTable α)
    (s : RngState α) (e : ε) :
    dimsLoop est alpha sqrtFn ms n dims tbl s = .error e ↔
      firstError (dimCalls est alpha sqrtFn ms n dims s) = some e := by
  induction dims generalizing tbl s with
  | nil => simp [dimsLoop, dimCalls]
  | cons d rest ih =>
      simp only [dimsLoop, dimCalls]
      rw [firstError_append]
      cases htl : trialsLoop est alpha sqrtFn ms d (List.range n) tbl s with
      | error e' =>
          rw [(trialsLoop_error_iff est alpha sqrtFn ms d (List.range n) tbl s e').mp htl]
          simp
      | ok p =>
          have h1 : firstError (trialCalls est alpha sqrtFn ms d (List.range n) s) =
              none := by
            cases hfe : firstError (trialCalls est alpha sqrtFn ms d (List.range n) s) with
            | none => rfl
            | some e' =>
                rw [(trialsLoop_error_iff est alpha sqrtFn ms d (List.range n)
                  tbl s e').mpr hfe] at htl
                cases htl
          obtain ⟨tbl2, heq2, -⟩ :=
            trialsLoop_ok_char est alpha sqrtFn ms d (List.range n) tbl s h1
          rw [heq2] at htl
          injection htl with hp
          subst hp
          rw [h1]
          simp only [List.length_range]
          exact ih tbl2 (advance (n * consPerTrial d) s)

theorem dimsLoop_ok_char (est : Estimator α ε) (alpha : α) (sqrtFn : α → α)
    (ms : List String) (n : Nat) (dims : List Nat) (tbl : ResultTable α)
    (s : RngState α) (hnd : dims.Nodup)
    (h : firstError (dimCalls est alpha sqrtFn ms n dims s) = none) :
    ∃ tbl', dimsLoop est alpha sqrtFn ms n dims tbl s =
        .ok (tbl', advance (totalCons n dims) s) ∧
      ∀ m' d', getCell tbl' m' d' =
        if m' ∈ ms ∧ d' ∈ dims then
          (getCell tbl m' d').map
            (applyTrialWrites est alpha sqrtFn d' m' (List.range n)
              (advance (offsetBefore n dims d') s))
        else getCell tbl m' d' := by
  induction dims generalizing tbl s with
  | nil =>
      refine ⟨tbl, by simp [dimsLoop, totalCons], ?_⟩
      intro m' d'
      simp
  | cons d rest ih =>
      rw [List.nodup_cons] at hnd
      rw [dimCalls, firstError_append] at h
      cases hfe : firstError (trialCalls est alpha sqrtFn ms d (List.range n) s) with
      | some e' => rw [hfe] at h; cases h
      | none =>
          rw [hfe] at h
          obtain ⟨tbl2, heq2, hchar2⟩ :=
            trialsLoop_ok_char est alpha sqrtFn ms d (List.range n) tbl s hfe
          obtain ⟨tbl', heq', hchar'⟩ := ih tbl2 (advance (n * consPerTrial d) s) hnd.2 h
          refine ⟨tbl', ?_, ?_⟩
          · simp only [dimsLoop, heq2, List.length_range]
            rw [heq']
            simp [advance_advance, totalCons]
          · intro m' d'
            rw [hchar' m' d']
            by_cases hm : m' ∈ ms
            · by_cases hdr : d' ∈ rest
              · have hdd : d' ≠ d := fun hcon => hnd.1 (hcon ▸ hdr)
                rw [if_pos ⟨hm, hdr⟩, hchar2 m' d', if_neg (by simp [hdd]),
                  if_pos ⟨hm, List.mem_cons_of_mem d hdr⟩, advance_advance,
                  offsetBefore, if_neg (Ne.symm hdd)]
              · by_cases hdd : d' = d
                · subst hdd
                  rw [if_neg (by simp [hdr]), hchar2 m' d', if_pos ⟨hm, rfl⟩,
                    if_pos ⟨hm, List.mem_cons_self d' rest⟩, offsetBefore, if_pos rfl,
                    advance_zero]
                · rw [if_neg (by simp [hdr]), hchar2 m' d', if_neg (by simp [hdd]),
                    if_neg (by simp [hdr, hdd])]
            · rw [if_neg (by simp [hm]), hchar2 m' d', if_neg (by simp [hm]),
                if_neg (by simp [hm])]

/-- Main characterization of a completed run: the final random state is the
initial one advanced by the total consumption, and each (method, dimension)
cell of the table is the blank cell of np.empty written through the trial
writes of that dimension's pass. -/
theorem PIs_ok_char (est : Estimator α ε) (methods : List String) (alpha : α)
    (n : Nat) (dims : List Nat) (sqrtFn : α → α) (junk : α) (s : RngState α)
    (tbl : ResultTable α) (s' : RngState α) (m : String) (d : Nat)
    (hnd : dims.Nodup) (hm : m ∈ methods) (hd : d ∈ dims)
    (hrun : PIs_vs_dimensions est methods alpha n dims sqrtFn junk s = .ok (tbl, s')) :
    s' = advance (totalCons n dims) s ∧
    getCell tbl m d =
      some (applyTrialWrites est alpha sqrtFn d m (List.range n)
        (advance (offsetBefore n dims d) s)
        ⟨List.replicate n junk, List.replicate n junk⟩) := by
  have hfe : firstError (dimCalls est alpha sqrtFn methods n dims s) = none := by
    cases hfe : firstError (dimCalls est alpha sqrtFn methods n dims s) with
    | none => rfl
    | some e =>
        rw [PIs_vs_dimensions,
          (dimsLoop_error_iff est alpha sqrtFn methods n dims
            (initTable methods dims n junk) s e).mpr hfe] at hrun
        cases hrun
  obtain ⟨tbl', heq, hchar⟩ :=
    dimsLoop_ok_char est alpha sqrtFn methods n dims
      (initTable methods dims n junk) s hnd hfe
  rw [PIs_vs_dimensions, heq] at hrun
  injection hrun with hp
  have htbl : tbl' = tbl := congrArg Prod.fst hp
  have hs : advance (totalCons n dims) s = s' := congrArg Prod.snd hp
  subst htbl
  refine ⟨hs.symm, ?_⟩
  rw [hchar m d, getCell_initTable, if_pos ⟨hm, hd⟩, if_pos ⟨hm, hd⟩]
  rfl

theorem applyTrialWrites_length (est : Estimator α ε) (alpha : α) (sqrtFn : α → α)
    (dim : Nat) (m : String) (ts : List Nat) (s : RngState α) (c : Cell α) :
    ((applyTrialWrites est alpha sqrtFn dim m ts s c).coverage.length =
      c.coverage.length) ∧
    ((applyTrialWrites est alpha sqrtFn dim m ts s c).width_mean.length =
      c.width_mean.length) := by
  induction ts generalizing s c with
  | nil => exact ⟨rfl, rfl⟩
  | cons t rest ih =>
      rw [applyTrialWrites]
      obtain ⟨h1, h2⟩ := ih (advance (consPerTrial dim) s)
        (updCell t (trialValue est alpha sqrtFn dim m s) c)
      rw [h1, h2]
      simp [updCell, List.length_set]

theorem applyTrialWrites_getElem_not_mem (est : Estimator α ε) (alpha : α)
    (sqrtFn : α → α) (dim : Nat) (m : String) (ts : List Nat) (s : RngState α)
    (c : Cell α) (i : Nat) (hi : i ∉ ts) :
    ((applyTrialWrites est alpha sqrtFn dim m ts s c).coverage[i]? =
      c.coverage[i]?) ∧
    ((applyTrialWrites est alpha sqrtFn dim m ts s c).width_mean[i]? =
      c.width_mean[i]?) := by
  induction ts generalizing s c with
  | nil => exact ⟨rfl, rfl⟩
  | cons t rest ih =>
      have hti : t ≠ i := fun hc => hi (hc ▸ List.mem_cons_self t rest)
      have hir : i ∉ rest := fun hc => hi (List.mem_cons_of_mem t hc)
      rw [applyTrialWrites]
      obtain ⟨h1, h2⟩ := ih (advance (consPerTrial dim) s)
        (updCell t (trialValue est alpha sqrtFn dim m s) c) hir
      rw [h1, h2]
      constructor <;> simp [updCell, List.getElem?_set_ne hti]

theorem applyTrialWrites_getElem (est : Estimator α ε) (alpha : α)
    (sqrtFn : α → α) (dim : Nat) (m : String) (ts : List Nat) (s : RngState α)
    (c : Cell α) (k i : Nat) (hnd : ts.Nodup) (hk : ts[k]? = some i)
    (hci : i < c.coverage.length) (hwi : i < c.width_mean.length) :
    ((applyTrialWrites est alpha sqrtFn dim m ts s c).coverage[i]? =
      some (trialValue est alpha sqrtFn dim m
        (advance (k * consPerTrial dim) s)).1) ∧
    ((applyTrialWrites est alpha sqrtFn dim m ts s c).width_mean[i]? =
      some (trialValue est alpha sqrtFn dim m
        (advance (k * consPerTrial dim) s)).2) := by
  induction ts generalizing s c k with
  | nil => cases hk
  | cons t rest ih =>
      rw [List.nodup_cons] at hnd
      cases k with
      | zero =>
          have ht : t = i := by simpa using hk
          subst ht
          rw [applyTrialWrites]
          obtain ⟨h1, h2⟩ := applyTrialWrites_getElem_not_mem est alpha sqrtFn dim m
            rest (advance (consPerTrial dim) s)
            (updCell t (trialValue est alpha sqrtFn dim m s) c) t hnd.1
          rw [h1, h2]
          constructor <;>
            simp [updCell, List.getElem?_set_self, hci, hwi, Nat.zero_mul]
      | succ k' =>
          have hk' : rest[k']? = some i := by simpa using hk
          have hir : i ∈ rest := mem_of_getElem?_eq_some hk'
          have hti : t ≠ i := fun hc => hnd.1 (hc ▸ hir)
          rw [applyTrialWrites]
          have hc1 : i < (updCell t (trialValue est alpha sqrtFn dim m s) c).coverage.length := by
            simpa [updCell, List.length_set] using hci
          have hc2 : i < (updCell t (trialValue est alpha sqrtFn dim m s) c).width_mean.length := by
            simpa [updCell, List.length_set] using hwi
          obtain ⟨h1, h2⟩ := ih (advance (consPerTrial dim) s)
            (updCell t (trialValue est alpha sqrtFn dim m s) c) k' hnd.2 hk' hc1 hc2
          rw [h1, h2, advance_advance, Nat.add_comm, ← Nat.succ_mul]
          exact ⟨rfl, rfl⟩

/-- Pointwise content of a completed run: each cell has arrays of length
n_trial whose entry at index t is exactly the value computed by the call of
dimension d, trial t, method m; in particular it does not depend on the
junk contents of np.empty. -/
theorem PIs_cell_char' (est : Estimator α ε) (methods : List String) (alpha : α)
    (n : Nat) (dims : List Nat) (sqrtFn : α → α) (junk : α) (s : RngState α)
    (tbl : ResultTable α) (s' : RngState α) (m : String) (d : Nat)
    (hnd : dims.Nodup) (hm : m ∈ methods) (hd : d ∈ dims)
    (hrun : PIs_vs_dimensions est methods alpha n dims sqrtFn junk s = .ok (tbl, s')) :
    ∃ cell, getCell tbl m d = some cell ∧
      cell.coverage.length = n ∧ cell.width_mean.length = n ∧
      ∀ t, t < n →
        cell.coverage[t]? = some (trialValue est alpha sqrtFn d m
          (advance (offsetBefore n dims d + t * consPerTrial d) s)).1 ∧
        cell.width_mean[t]? = some (trialValue est alpha sqrtFn d m
          (advance (offsetBefore n dims d + t * consPerTrial d) s)).2 := by
  obtain ⟨hs, hcell⟩ :=
    PIs_ok_char est methods alpha n dims sqrtFn junk s tbl s' m d hnd hm hd hrun
  refine ⟨_, hcell, ?_, ?_, ?_⟩
  · rw [(applyTrialWrites_length est alpha sqrtFn d m (List.range n)
      (advance (offsetBefore n dims d) s) _).1]
    simp
  · rw [(applyTrialWrites_length est alpha sqrtFn d m (List.range n)
      (advance (offsetBefore n dims d) s) _).2]
    simp
  · intro t ht
    constructor
    · rw [(applyTrialWrites_getElem est alpha sqrtFn d m (List.range n)
        (advance (offsetBefore n dims d) s) _ t t (List.nodup_range n)
        (by simp [ht]) (by simp [ht]) (by simp [ht])).1, advance_advance]
    · rw [(applyTrialWrites_getElem est alpha sqrtFn d m (List.range n)
        (advance (offsetBefore n dims d) s) _ t t (List.nodup_range n)
        (by simp [ht]) (by simp [ht]) (by simp [ht])).2, advance_advance]

/-! Write-count instrumentation: loops with exactly the same control flow as
PIs_vs_dimensions, but whose table records, for every array index of every
cell, how many times the harness assigns that index.  This turns the
statement that every index of every cell is written exactly once into a
statement about the final count table. -/

/-- Per-index write counters for one cell. -/
structure CellW where
  coverage : List Nat
  width_mean : List Nat

/-- Count the writes of lines 112-113: increment the counter of index trial
in both counter arrays. -/
def bumpCell (trial : Nat) (c : CellW) : CellW :=
  ⟨c.coverage.set trial (c.coverage.getD trial 0 + 1),
   c.width_mean.set trial (c.width_mean.getD trial 0 + 1)⟩

/-- The initial count table: a zero counter for every array index of every
(method, dimension) cell. -/
def initTableW (methods : List String) (dimensions : List Nat) (n_trial : Nat) :
    TableOf CellW :=
  methods.map fun method =>
    (method, dimensions.map fun dimension =>
      (dimension, ⟨List.replicate n_trial 0, List.replicate n_trial 0⟩))

/-- Counting variant of methodsLoop. -/
def methodsLoopW (est : Estimator α ε) (alpha : α) (td : TrialData α)
    (dimension trial : Nat) :
    List String → TableOf CellW → Except ε (TableOf CellW)
  | [], tbl => .ok tbl
  | method :: rest, tbl =>
    match methodEval est alpha method td with
    | .error e => .error e
    | .ok _ =>
        methodsLoopW est alpha td dimension trial rest
          (modifyCell tbl method dimension (bumpCell trial))

/-- Counting variant of trialsLoop. -/
def trialsLoopW (est : Estimator α ε) (alpha : α) (sqrtFn : α → α)
    (methods : List String) (dimension : Nat) :
    List Nat → TableOf CellW → RngState α → Except ε (TableOf CellW × RngState α)
  | [], tbl, s => .ok (tbl, s)
  | trial :: rest, tbl, s =>
    let p := genTrialData sqrtFn dimension s
    match methodsLoopW est alpha p.1 dimension trial methods tbl with
    | .error e => .error e
    | .ok tbl2 => trialsLoopW est alpha sqrtFn methods dimension rest tbl2 p.2

/-- Counting variant of dimsLoop. -/
def dimsLoopW (est : Estimator α ε) (alpha : α) (sqrtFn : α → α)
    (methods : List String) (n_trial : Nat) :
    List Nat → TableOf CellW → RngState α → Except ε (TableOf CellW × RngState α)
  | [], tbl, s => .ok (tbl, s)
  | dimension :: rest, tbl, s =>
    match trialsLoopW est alpha sqrtFn methods dimension (List.range n_trial) tbl s with
    | .error e => .error e
    | .ok p => dimsLoopW est alpha sqrtFn methods n_trial rest p.1 p.2

/-- Counting variant of PIs_vs_dimensions. -/
def PIs_vs_dimensions_wc (est : Estimator α ε) (methods : List String) (alpha : α)
    (n_trial : Nat) (dimensions : List Nat) (sqrtFn : α → α) (s : RngState α) :
    Except ε (TableOf CellW × RngState α) :=
  dimsLoopW est alpha sqrtFn methods n_trial dimensions
    (initTableW methods dimensions n_trial) s

/-- The successive count bumps performed by a list of trial indices on one
method's counter cell. -/
def applyTrialBumps : List Nat → CellW → CellW
  | [], c => c
  | t :: rest, c => applyTrialBumps rest (bumpCell t c)

theorem methodsLoopW_ok_char (est : Estimator α ε) (alpha : α) (td : TrialData α)
    (dimension trial : Nat) (ms : List String) (tblW : TableOf CellW)
    (hnd : ms.Nodup)
    (h : firstError (ms.map fun m => methodEval est alpha m td) = none) :
    ∃ tbl', methodsLoopW est alpha td dimension trial ms tblW = .ok tbl' ∧
      ∀ m' d', getCell tbl' m' d' =
        if m' ∈ ms ∧ d' = dimension then
          (getCell tblW m' d').map (bumpCell trial)
        else getCell tblW m' d' := by
  induction ms generalizing tblW with
  | nil => exact ⟨tblW, rfl, by simp⟩
  | cons m rest ih =>
      rw [List.nodup_cons] at hnd
      cases hm : methodEval est alpha m td with
      | error e =>
          rw [List.map_cons, hm] at h
          simp at h
      | ok v =>
          rw [List.map_cons, hm, firstError_cons_ok] at h
          obtain ⟨tbl', heq, hchar⟩ :=
            ih (modifyCell tblW m dimension (bumpCell trial)) hnd.2 h
          refine ⟨tbl', by simp [methodsLoopW, hm, heq], ?_⟩
          intro m' d'
          rw [hchar m' d']
          by_cases hd : d' = dimension
          · subst hd
            by_cases hmm : m' = m
            · subst hmm
              rw [if_neg (by simp [hnd.1]),
                if_pos ⟨List.mem_cons_self m' rest, rfl⟩, getCell_modifyCell_same]
            · by_cases hmem : m' ∈ rest
              · rw [if_pos ⟨hmem, rfl⟩, if_pos ⟨List.mem_cons_of_mem m hmem, rfl⟩,
                  getCell_modifyCell_ne _ _ _ _ _ _ (Or.inl hmm)]
              · rw [if_neg (by simp [hmem]), if_neg (by simp [hmem, hmm]),
                  getCell_modifyCell_ne _ _ _ _ _ _ (Or.inl hmm)]
          · rw [if_neg (by simp [hd]), if_neg (by simp [hd]),
              getCell_modifyCell_ne _ _ _ _ _ _ (Or.inr hd)]

theorem trialsLoopW_ok_char (est : Estimator α ε) (alpha : α) (sqrtFn : α → α)
    (ms : List String) (dim : Nat) (ts : List Nat) (tblW : TableOf CellW)
    (s : RngState α) (hnd : ms.Nodup)
    (h : firstError (trialCalls est alpha sqrtFn ms dim ts s) = none) :
    ∃ tbl', trialsLoopW est alpha sqrtFn ms dim ts tblW s =
        .ok (tbl', advance (ts.length * consPerTrial dim) s) ∧
      ∀ m' d', getCell tbl' m' d' =
        if m' ∈ ms ∧ d' = dim then (getCell tblW m' d').map (applyTrialBumps ts)
        else getCell tblW m' d' := by
  induction ts generalizing tblW s with
  | nil =>
      refine ⟨tblW, by simp [trialsLoopW], ?_⟩
      intro m' d'
      by_cases hc : m' ∈ ms ∧ d' = dim
      · rw [if_pos hc]
        cases getCell tblW m' d' <;> simp [applyTrialBumps]
      · rw [if_neg hc]
  | cons t rest ih =>
      rw [trialCalls, firstError_append] at h
      cases hfe : firstError
          (ms.map fun m => methodEval est alpha m (genTrialData sqrtFn dim s).1) with
      | some e' => rw [hfe] at h; cases h
      | none =>
          rw [hfe] at h
          obtain ⟨tbl2, heq2, hchar2⟩ :=
            methodsLoopW_ok_char est alpha (genTrialData sqrtFn dim s).1 dim t ms
              tblW hnd hfe
          obtain ⟨tbl', heq', hchar'⟩ := ih tbl2 (advance (consPerTrial dim) s) h
          refine ⟨tbl', ?_, ?_⟩
          · simp only [trialsLoopW, heq2]
            rw [genTrialData_state, heq']
            simp [advance_advance, List.length_cons, Nat.succ_mul, Nat.add_comm]
          · intro m' d'
            rw [hchar' m' d']
            by_cases hc : m' ∈ ms ∧ d' = dim
            · rw [if_pos hc, hchar2 m' d', if_pos hc]
              cases getCell tblW m' d' with
              | none => simp
              | some cell => simp [applyTrialBumps, hc.1, hc.2]
            · rw [if_neg hc, hchar2 m' d', if_neg hc, if_neg hc]

theorem dimsLoopW_ok_char (est : Estimator α ε) (alpha : α) (sqrtFn : α → α)
    (ms : List String) (n : Nat) (dims : List Nat) (tblW : TableOf CellW)
    (s : RngState α) (hndm : ms.Nodup) (hnd : dims.Nodup)
    (h : firstError (dimCalls est alpha sqrtFn ms n dims s) = none) :
    ∃ tbl', dimsLoopW est alpha sqrtFn ms n dims tblW s =
        .ok (tbl', advance (totalCons n dims) s) ∧
      ∀ m' d', getCell tbl' m' d' =
        if m' ∈ ms ∧ d' ∈ dims then
          (getCell tblW m' d').map (applyTrialBumps (List.range n))
        else getCell tblW m' d' := by
  induction dims generalizing tblW s with
  | nil =>
      refine ⟨tblW, by simp [dimsLoopW, totalCons], ?_⟩
      intro m' d'
      simp
  | cons d rest ih =>
      rw [List.nodup_cons] at hnd
      rw [dimCalls, firstError_append] at h
      cases hfe : firstError (trialCalls est alpha sqrtFn ms d (List.range n) s) with
      | some e' => rw [hfe] at h; cases h
      | none =>
          rw [hfe] at h
          obtain ⟨tbl2, heq2, hchar2⟩ :=
            trialsLoopW_ok_char est alpha sqrtFn ms d (List.range n) tblW s hndm hfe
          obtain ⟨tbl', heq', hchar'⟩ := ih tbl2 (advance (n * consPerTrial d) s) hnd.2 h
          refine ⟨tbl', ?_, ?_⟩
          · simp only [dimsLoopW, heq2, List.length_range]
            rw [heq']
            simp [advance_advance, totalCons]
          · intro m' d'
            rw [hchar' m' d']
            by_cases hm : m' ∈ ms
            · by_cases hdr : d' ∈ rest
              · have hdd : d' ≠ d := fun hcon => hnd.1 (hcon ▸ hdr)
                rw [if_pos ⟨hm, hdr⟩, hchar2 m' d', if_neg (by simp [hdd]),
                  if_pos ⟨hm, List.mem_cons_of_mem d hdr⟩]
              · by_cases hdd : d' = d
                · subst hdd
                  rw [if_neg (by simp [hdr]), hchar2 m' d', if_pos ⟨hm, rfl⟩,
                    if_pos ⟨hm, List.mem_cons_self d' rest⟩]
                · rw [if_neg (by simp [hdr]), hchar2 m' d', if_neg (by simp [hdd]),
                    if_neg (by simp [hdr, hdd])]
            · rw [if_neg (by simp [hm]), hchar2 m' d', if_neg (by simp [hm]),
                if_neg (by simp [hm])]

theorem applyTrialBumps_getElem_not_mem (ts : List Nat) (c : CellW) (i : Nat)
    (hi : i ∉ ts) :
    ((applyTrialBumps ts c).coverage[i]? = c.coverage[i]?) ∧
    ((applyTrialBumps ts c).width_mean[i]? = c.width_mean[i]?) := by
  induction ts generalizing c with
  | nil => exact ⟨rfl, rfl⟩
  | cons t rest ih =>
      have hti : t ≠ i := fun hc => hi (hc ▸ List.mem_cons_self t rest)
      have hir : i ∉ rest := fun hc => hi (List.mem_cons_of_mem t hc)
      rw [applyTrialBumps]
      obtain ⟨h1, h2⟩ := ih (bumpCell t c) hir
      rw [h1, h2]
      constructor <;> simp [bumpCell, List.getElem?_set_ne hti]

theorem applyTrialBumps_getElem (ts : List Nat) (c : CellW) (i : Nat)
    (hnd : ts.Nodup) (hi : i ∈ ts) (hci : i < c.coverage.length)
    (hwi : i < c.width_mean.length) :
    ((applyTrialBumps ts c).coverage[i]? = some (c.coverage.getD i 0 + 1)) ∧
    ((applyTrialBumps ts c).width_mean[i]? = some (c.width_mean.getD i 0 + 1)) := by
  induction ts generalizing c with
  | nil => cases hi
  | cons t rest ih =>
      rw [List.nodup_cons] at hnd
      rw [applyTrialBumps]
      by_cases ht : t = i
      · subst ht
        obtain ⟨h1, h2⟩ := applyTrialBumps_getElem_not_mem rest (bumpCell t c) t hnd.1
        rw [h1, h2]
        constructor <;> simp [bumpCell, List.getElem?_set_self, hci, hwi]
      · have hir : i ∈ rest := by
          cases List.mem_cons.mp hi with
          | inl hc => exact absurd hc.symm ht
          | inr hc => exact hc
        have hl1 : i < (bumpCell t c).coverage.length := by
          simpa [bumpCell, List.length_set] using hci
        have hl2 : i < (bumpCell t c).width_mean.length := by
          simpa [bumpCell, List.length_set] using hwi
        obtain ⟨h1, h2⟩ := ih (bumpCell t c) hnd.2 hir hl1 hl2
        rw [h1, h2]
        constructor <;>
          simp [bumpCell, List.getD_eq_getElem?_getD, List.getElem?_set_ne ht]

/-- Write-count characterization of a completed run: when every estimator
call succeeds, the counting harness finishes and the counter of every array
index of every requested (method, dimension) cell is exactly one. -/
theorem PIs_wc_char (est : Estimator α ε) (methods : List String) (alpha : α)
    (n : Nat) (dims : List Nat) (sqrtFn : α → α) (s : RngState α)
    (m : String) (d : Nat)
    (hndm : methods.Nodup) (hnd : dims.Nodup) (hm : m ∈ methods) (hd : d ∈ dims)
    (hfe : firstError (dimCalls est alpha sqrtFn methods n dims s) = none) :
    ∃ tblW cw, PIs_vs_dimensions_wc est methods alpha n dims sqrtFn s =
        .ok (tblW, advance (totalCons n dims) s) ∧
      getCell tblW m d = some cw ∧
      cw.coverage.length = n ∧ cw.width_mean.length = n ∧
      ∀ t, t < n → cw.coverage[t]? = some 1 ∧ cw.width_mean[t]? = some 1 := by
  obtain ⟨tblW, heq, hchar⟩ :=
    dimsLoopW_ok_char est alpha sqrtFn methods n dims
      (initTableW methods dims n) s hndm hnd hfe
  have hinit : getCell (initTableW methods dims n) m d =
      some ⟨List.replicate n 0, List.replicate n 0⟩ := by
    rw [show initTableW methods dims n =
        methods.map fun method => (method, dims.map fun dimension =>
          (dimension, (⟨List.replicate n 0, List.replicate n 0⟩ : CellW))) from rfl,
      getCell_blankTable, if_pos ⟨hm, hd⟩]
  refine ⟨tblW, applyTrialBumps (List.range n) ⟨List.replicate n 0, List.replicate n 0⟩,
    heq, ?_, ?_, ?_, ?_⟩
  · rw [hchar m d, if_pos ⟨hm, hd⟩, hinit]
    rfl
  · have : ∀ ts (c : CellW), (applyTrialBumps ts c).coverage.length = c.coverage.length := by
      intro ts
      induction ts with
      | nil => intro c; rfl
      | cons t rest ih =>
          intro c
          rw [applyTrialBumps, ih]
          simp [bumpCell, List.length_set]
    rw [this]
    simp
  · have : ∀ ts (c : CellW), (applyTrialBumps ts c).width_mean.length = c.width_mean.length := by
      intro ts
      induction ts with
      | nil => intro c; rfl
      | cons t rest ih =>
          intro c
          rw [applyTrialBumps, ih]
          simp [bumpCell, List.length_set]
    rw [this]
    simp
  · intro t ht
    obtain ⟨h1, h2⟩ := applyTrialBumps_getElem (List.range n)
      ⟨List.replicate n 0, List.replicate n 0⟩ t (List.nodup_range n)
      (List.mem_range.mpr ht) (by simp [ht]) (by simp [ht])
    rw [h1, h2]
    constructor <;>
      simp [List.getD_eq_getElem?_getD, List.getElem?_replicate, ht]

/-- The per-trial data generation in the order in which the specification
states the drawing steps: first the coefficient vector, then both the
training and the test design matrices, and only then the training and test
noise.  This definition follows the wording of the spec; it differs from
genTrialData (the translation of the code) only in the position of the
random draws within the trial. -/
def genTrialDataSpecOrder (sqrtFn : α → α) (dimension : Nat)
    (s : RngState α) : TrialData α × RngState α :=
  let p1 := npRandomNormalVec dimension s
  let beta := normalizeBeta sqrtFn p1.1
  let p2 := npRandomNormalMat n_train dimension p1.2
  let p5 := npRandomNormalMat n_test dimension p2.2
  let p3 := npRandomNormalVec n_train p5.2
  let p4 := npRandomNormalVec n_test p3.2
  let y_train := List.zipWith (fun a b => a + b) (p2.1.map fun row => npDot row beta) p3.1
  let y_test := List.zipWith (fun a b => a + b) (p5.1.map fun row => npDot row beta) p4.1
  (⟨beta, p2.1, y_train, p5.1, y_test⟩, p4.2)

/-- np.std of a one-dimensional array: the square root of the mean squared
deviation from the mean (population standard deviation). -/
def npStd (sqrtFn : α → α) (l : List α) : α :=
  sqrtFn (npMean (l.map fun x => (x - npMean l) ^ 2))

/-- The data of one method's two plot panels, computed by lines 139-149 of
plot_simulation_results: the dimension list, coverage means, coverage
standard errors, width means and width standard errors. -/
structure PanelRow (α : Type) where
  dims : List Nat
  coverage_mean : List α
  coverage_SE : List α
  width_mean : List α
  width_SE : List α

/-- plot_simulation_results, lines 117-166: for each method of the results
table compute the panel data of lines 139-149 (the rendering calls of lines
150-166 only consume these).  ntrial is the module-level global read on
lines 147 and 149 and sqrtFn stands for np.sqrt.  The input table is
returned alongside the panel data: the function performs no write to it, so
the embedding returns it unchanged. -/
def plot_simulation_results (sqrtFn : α → α) (ntrial : Nat)
    (results : ResultTable α) : List (String × PanelRow α) × ResultTable α :=
  (results.map fun me =>
    (me.1,
      ⟨me.2.map fun q => q.1,
       me.2.map fun q => npMean q.2.coverage,
       me.2.map fun q => npStd sqrtFn q.2.coverage / sqrtFn (ntrial : α),
       me.2.map fun q => npMean q.2.width_mean,
       me.2.map fun q => npStd sqrtFn q.2.width_mean / sqrtFn (ntrial : α)⟩),
   results)

theorem trialsLoop_ok_state (est : Estimator α ε) (alpha : α) (sqrtFn : α → α)
    (ms : List String) (dim : Nat) (ts : List Nat) (tbl : ResultTable α)
    (s : RngState α) (p : ResultTable α × RngState α)
    (h : trialsLoop est alpha sqrtFn ms dim ts tbl s = .ok p) :
    p.2 = advance (ts.length * consPerTrial dim) s := by
  induction ts generalizing tbl s with
  | nil =>
      rw [trialsLoop] at h
      injection h with h
      rw [← h]
      simp
  | cons t rest ih =>
      simp only [trialsLoop] at h
      cases hml : methodsLoop est alpha (genTrialData sqrtFn dim s).1 dim t ms tbl with
      | error e => rw [hml] at h; cases h
      | ok tbl2 =>
          rw [hml, genTrialData_state] at h
          rw [ih tbl2 (advance (consPerTrial dim) s) h, advance_advance]
          simp [List.length_cons, Nat.succ_mul, Nat.add_comm]

theorem dimsLoop_ok_state (est : Estimator α ε) (alpha : α) (sqrtFn : α → α)
    (ms : List String) (n : Nat) (dims : List Nat) (tbl : ResultTable α)
    (s : RngState α) (p : ResultTable α × RngState α)
    (h : dimsLoop est alpha sqrtFn ms n dims tbl s = .ok p) :
    p.2 = advance (totalCons n dims) s := by
  induction dims generalizing tbl s with
  | nil =>
      rw [dimsLoop] at h
      injection h with h
      rw [← h]
      simp [totalCons]
  | cons d rest ih =>
      simp only [dimsLoop] at h
      cases htl : trialsLoop est alpha sqrtFn ms d (List.range n) tbl s with
      | error e => rw [htl] at h; cases h
      | ok q =>
          rw [htl] at h
          have hq : q.2 = advance (n * consPerTrial d) s := by
            rw [trialsLoop_ok_state est alpha sqrtFn ms d (List.range n) tbl s q htl]
            simp [List.length_range]
          rw [ih q.1 q.2 h, hq, advance_advance]
          simp [totalCons]

/-- A completed run leaves the random source's stream untouched and its
cursor advanced by exactly the total consumption of the configuration. -/
theorem PIs_ok_state (est : Estimator α ε) (methods : List String) (alpha : α)
    (n : Nat) (dims : List Nat) (sqrtFn : α → α) (junk : α) (s : RngState α)
    (tbl : ResultTable α) (s' : RngState α)
    (hrun : PIs_vs_dimensions est methods alpha n dims sqrtFn junk s = .ok (tbl, s')) :
    s'.stream = s.stream ∧ s'.pos = s.pos + totalCons n dims := by
  have := dimsLoop_ok_state est alpha sqrtFn methods n dims
    (initTable methods dims n junk) s (tbl, s') hrun
  rw [show (tbl, s').2 = s' from rfl] at this
  rw [this]
  exact ⟨rfl, rfl⟩

theorem genTrialData_y_test_length (sqrtFn : α → α) (dimension : Nat)
    (s : RngState α) :
    (genTrialData sqrtFn dimension s).1.y_test.length = n_test := by
  simp [genTrialData, npRandomNormalVec, npRandomNormalMat, List.length_zipWith]

theorem genTrialData_X_test_length (sqrtFn : α → α) (dimension : Nat)
    (s : RngState α) :
    (genTrialData sqrtFn dimension s).1.X_test.length = n_test := by
  simp [genTrialData, npRandomNormalMat]

theorem sum_indicator_eq_countP {β γ : Type} (P : β → γ → Prop)
    [inst : ∀ b c, Decidable (P b c)] (l₁ : List β) (l₂ : List γ) :
    (List.zipWith (fun b c => if P b c then (1 : α) else 0) l₁ l₂).sum =
      (((l₁.zip l₂).countP fun bc => decide (P bc.1 bc.2) : ℕ) : α) := by
  induction l₁ generalizing l₂ with
  | nil => simp
  | cons b rest ih =>
      cases l₂ with
      | nil => simp
      | cons c rest2 =>
          rw [List.zipWith_cons_cons, List.sum_cons, ih rest2,
            List.zip_cons_cons, List.countP_cons]
          by_cases h : P b c
          · simp [h, Nat.add_comm]
          · simp [h]

theorem sum_indicator_bounds (l : List α) (h : ∀ x ∈ l, x = 0 ∨ x = 1) :
    0 ≤ l.sum ∧ l.sum ≤ (l.length : α) := by
  induction l with
  | nil => simp
  | cons x rest ih =>
      obtain ⟨h1, h2⟩ := ih fun y hy => h y (List.mem_cons_of_mem x hy)
      have hx := h x (List.mem_cons_self x rest)
      rw [List.sum_cons, List.length_cons]
      constructor
      · rcases hx with hx | hx <;> simp [hx] <;> linarith
      · push_cast
        rcases hx with hx | hx <;> rw [hx] <;> linarith

theorem npMean_indicator_bounds (l : List α) (h : ∀ x ∈ l, x = 0 ∨ x = 1) :
    0 ≤ npMean l ∧ npMean l ≤ 1 := by
  obtain ⟨h1, h2⟩ := sum_indicator_bounds l h
  rw [npMean]
  cases l with
  | nil => simp
  | cons x rest =>
      have hlen : (0 : α) < ((x :: rest).length : α) := by
        have : 0 < (x :: rest).length := List.length_pos_of_mem (List.mem_cons_self x rest)
        exact_mod_cast this
      exact ⟨div_nonneg h1 hlen.le, (div_le_one hlen).mpr h2⟩

theorem npMean_nonneg (l : List α) (h : ∀ x ∈ l, 0 ≤ x) : 0 ≤ npMean l :=
  div_nonneg (List.sum_nonneg h) (Nat.cast_nonneg l.length)

end Barber2020

namespace Homoscedastic1D

/-- Polynomial of examples/plot_homoscedastic_1d_data.py lines 21-23:
f(x) = 5x + 5x^4 - 9x^2. -/
def f [LinearOrderedField α] (x : α) : α := 5 * x + 5 * x ^ 4 - 9 * x ^ 2

/-- np.random.exponential(scale, n): consume n draws of the source,
transformed into exponential samples of the given scale by a fixed
deterministic transformation expT of the underlying draws. -/
def npRandomExponential (expT : α → α → α) (scale : α) (n : Nat)
    (s : RngState α) : List α × RngState α :=
  ((List.range n).map fun i => expT scale (s.stream (s.pos + i)), advance n s)

/-- np.random.normal(mu, sigma, n): mu + sigma times each of n draws of the
standard-normal source. -/
def npRandomNormalScaled [LinearOrderedField α] (mu sigma : α) (n : Nat)
    (s : RngState α) : List α × RngState α :=
  ((List.range n).map fun i => mu + sigma * s.stream (s.pos + i), advance n s)

/-- np.linspace(lo, hi, n, endpoint=False). -/
def npLinspace [LinearOrderedField α] (lo hi : α) (n : Nat) : List α :=
  (List.range n).map fun i => lo + (i : α) * ((hi - lo) / (n : α))

/-- get_homoscedastic_data, lines 26-75: first seed the process-wide random
source with seed 59 (line 68, np.random.seed(59)), then draw exponential
training inputs with scale 0.4, a linspace test grid on [0.001, 1.2), noisy
training targets and noiseless test targets, and return them with the
interval half-width q90 * sigma.  seedFam maps a seed to the stream of
draws the freshly seeded source produces; the incoming state s is discarded
by the seeding, which the embedding models by ignoring it. -/
def get_homoscedastic_data [LinearOrderedField α] (seedFam : Nat → Nat → α)
    (expT : α → α → α) (n_samples n_test : Nat) (sigma : α) (s : RngState α) :
    (List α × List α × List α × List α × α) × RngState α :=
  let s0 : RngState α := ⟨seedFam 59, 0⟩
  let q90 : α := 18 / 10
  let p1 := npRandomExponential expT (4 / 10) n_samples s0
  let X_test := npLinspace (1 / 1000) (12 / 10) n_test
  let p2 := npRandomNormalScaled 0 sigma n_samples p1.2
  let y_train := List.zipWith (fun a b => a + b) (p1.1.map f) p2.1
  let y_test := X_test.map f
  ((p1.1, y_train, X_test, y_test, q90 * sigma), p2.2)

end Homoscedastic1D

namespace Barber2020

theorem PIs_ok_firstError_none [LinearOrderedField α] (est : Estimator α ε)
    (methods : List String) (alpha : α) (n : Nat) (dims : List Nat)
    (sqrtFn : α → α) (junk : α) (s : RngState α) (tbl : ResultTable α)
    (s' : RngState α)
    (hrun : PIs_vs_dimensions est methods alpha n dims sqrtFn junk s = .ok (tbl, s')) :
    firstError (dimCalls est alpha sqrtFn methods n dims s) = none := by
  cases hfe : firstError (dimCalls est alpha sqrtFn methods n dims s) with
  | none => rfl
  | some e =>
      rw [PIs_vs_dimensions,
        (dimsLoop_error_iff est alpha sqrtFn methods n dims
          (initTable methods dims n junk) s e).mpr hfe] at hrun
      cases hrun

theorem sum_map_sq_nonneg (l : List ℝ) : 0 ≤ (l.map fun b => b ^ 2).sum :=
  List.sum_nonneg fun x hx => by
    obtain ⟨b, -, rfl⟩ := List.mem_map.mp hx
    positivity

theorem sum_map_sq_pos (l : List ℝ) (h : ∃ b ∈ l, b ≠ 0) :
    0 < (l.map fun b => b ^ 2).sum := by
  obtain ⟨b, hb, hbne⟩ := h
  induction l with
  | nil => cases hb
  | cons x rest ih =>
      rw [List.map_cons, List.sum_cons]
      cases List.mem_cons.mp hb with
      | inl hx =>
          have hxne : x ≠ 0 := hx ▸ hbne
          have h1 : 0 < x ^ 2 := by positivity
          have h2 := sum_map_sq_nonneg rest
          linarith
      | inr hr =>
          have h1 := ih hr
          have h2 := sq_nonneg x
          linarith

/-- Concrete random source for witnesses: every draw equals 1. -/
def onesState : RngState ℚ := ⟨fun _ => 1, 0⟩

/-- Concrete random source whose draw at position k equals k. -/
def idState : RngState ℚ := ⟨fun k => (k : ℚ), 0⟩

/-- A concrete deterministic estimator for witnesses: for every test row,
point prediction 0 with the interval [0, 20]. -/
def constEst : Estimator ℚ String :=
  fun _ _ _ X_test => .ok (X_test.map fun _ => (0, 0, 20))

/-- A concrete estimator returning inverted intervals: lower bound 1 above
upper bound 0. -/
def badEst : Estimator ℚ String :=
  fun _ _ _ X_test => .ok (X_test.map fun _ => (0, 1, 0))

/-- The spec's scenario run({"naive"}, alpha=0.1, n_trials=1,
dimensions=[5]), with the concrete estimator and source. -/
def scenarioRun : Except String (ResultTable ℚ × RngState ℚ) :=
  PIs_vs_dimensions constEst ["naive"] (1 / 10 : ℚ) 1 [5] id 0 onesState

/-- The scenario run's result table. -/
def scenarioTable : ResultTable ℚ :=
  (okD scenarioRun (initTable ["naive"] [5] 1 0, onesState)).1

/-- The scenario run's final random state. -/
def scenarioState : RngState ℚ :=
  (okD scenarioRun (initTable ["naive"] [5] 1 0, onesState)).2

/-- C1: for every call to PIs_vs_dimensions(methods, alpha, n_trial,
dimensions) that runs to completion, and every method in methods and
dimension in dimensions, the returned table holds under key
(method, dimension) a coverage array and a width_mean array of length
exactly n_trial, every index 0..n_trial-1 of which is written exactly once:
index t holds precisely the value computed by that dimension's trial t call
for that method (independently of the junk contents of np.empty), and the
write-count instrumentation of the same control flow records exactly one
write at every index of both arrays. -/
theorem C1_table_shape [LinearOrderedField α] (est : Estimator α ε)
    (methods : List String) (alpha : α) (n : Nat) (dims : List Nat)
    (sqrtFn : α → α) (junk : α) (s : RngState α) (tbl : ResultTable α)
    (s' : RngState α) (m : String) (d : Nat)
    (hndm : methods.Nodup) (hnd : dims.Nodup) (hm : m ∈ methods) (hd : d ∈ dims)
    (hrun : PIs_vs_dimensions est methods alpha n dims sqrtFn junk s = .ok (tbl, s')) :
    (∃ cell, getCell tbl m d = some cell ∧
      cell.coverage.length = n ∧ cell.width_mean.length = n ∧
      ∀ t, t < n →
        cell.coverage[t]? = some (trialValue est alpha sqrtFn d m
          (advance (offsetBefore n dims d + t * consPerTrial d) s)).1 ∧
        cell.width_mean[t]? = some (trialValue est alpha sqrtFn d m
          (advance (offsetBefore n dims d + t * consPerTrial d) s)).2) ∧
    (∃ tblW cw, PIs_vs_dimensions_wc est methods alpha n dims sqrtFn s =
        .ok (tblW, s') ∧
      getCell tblW m d = some cw ∧
      cw.coverage.length = n ∧ cw.width_mean.length = n ∧
      ∀ t, t < n → cw.coverage[t]? = some 1 ∧ cw.width_mean[t]? = some 1) := by
  obtain ⟨hs, hcell⟩ :=
    PIs_ok_char est methods alpha n dims sqrtFn junk s tbl s' m d hnd hm hd hrun
  have hfe := PIs_ok_firstError_none est methods alpha n dims sqrtFn junk s tbl s' hrun
  constructor
  · refine ⟨_, hcell, ?_, ?_, ?_⟩
    · rw [(applyTrialWrites_length est alpha sqrtFn d m (List.range n)
        (advance (offsetBefore n dims d) s) _).1]
      simp
    · rw [(applyTrialWrites_length est alpha sqrtFn d m (List.range n)
        (advance (offsetBefore n dims d) s) _).2]
      simp
    · intro t ht
      obtain ⟨h1, h2⟩ := applyTrialWrites_getElem est alpha sqrtFn d m (List.range n)
        (advance (offsetBefore n dims d) s)
        ⟨List.replicate n junk, List.replicate n junk⟩ t t (List.nodup_range n)
        (by simp [ht]) (by simp [ht]) (by simp [ht])
      rw [h1, h2, advance_advance]
      exact ⟨rfl, rfl⟩
  · obtain ⟨tblW, cw, heqW, hgetW, hl1, hl2, hone⟩ :=
      PIs_wc_char est methods alpha n dims sqrtFn s m d hndm hnd hm hd hfe
    exact ⟨tblW, cw, hs ▸ heqW, hgetW, hl1, hl2, hone⟩

/-- Witness for C1 at the spec's scenario: the run with one method, one
trial and dimension 5 completes and yields exactly one coverage value and
one width_mean value under the key ("naive", 5), each index written once. -/
theorem C1_table_shape_witness :
    ∃ cell, getCell scenarioTable "naive" 5 = some cell ∧
      cell.coverage.length = 1 ∧ cell.width_mean.length = 1 ∧
      ∃ cw : CellW, cw.coverage.length = 1 ∧ cw.width_mean.length = 1 ∧
        cw.coverage[0]? = some 1 ∧ cw.width_mean[0]? = some 1 := by
  obtain ⟨⟨cell, hget, hl1, hl2, -⟩, ⟨tblW, cw, -, -, hw1, hw2, hone⟩⟩ :=
    C1_table_shape constEst ["naive"] (1 / 10 : ℚ) 1 [5] id 0 onesState
      scenarioTable scenarioState "naive" 5
      (by decide) (by decide) (by decide) (by decide) (by rfl)
  obtain ⟨ho1, ho2⟩ := hone 0 (by decide)
  exact ⟨cell, hget, hl1, hl2, cw, hw1, hw2, ho1, ho2⟩

/-- C7: a run of PIs_vs_dimensions either completes its nested loops and
returns a table populated at every requested (method, dimension, trial)
position, or returns the first error raised by the external estimator in
loop execution order, without catching, retrying or skipping, and exposes no
partial table in that case (the error result carries no table at all): a
single failing call aborts the whole simulation. -/
theorem C7_all_or_nothing [LinearOrderedField α] (est : Estimator α ε)
    (methods : List String) (alpha : α) (n : Nat) (dims : List Nat)
    (sqrtFn : α → α) (junk : α) (s : RngState α) (hnd : dims.Nodup) :
    (∀ tbl s', PIs_vs_dimensions est methods alpha n dims sqrtFn junk s =
        .ok (tbl, s') →
      ∀ m ∈ methods, ∀ d ∈ dims, ∃ cell, getCell tbl m d = some cell ∧
        cell.coverage.length = n ∧ cell.width_mean.length = n ∧
        ∀ t, t < n → (cell.coverage[t]?).isSome ∧ (cell.width_mean[t]?).isSome) ∧
    (∀ e, PIs_vs_dimensions est methods alpha n dims sqrtFn junk s = .error e ↔
      firstError (dimCalls est alpha sqrtFn methods n dims s) = some e) := by
  constructor
  · intro tbl s' hrun m hm d hd
    obtain ⟨cell, hget, hl1, hl2, hpt⟩ :=
      PIs_cell_char' est methods alpha n dims sqrtFn junk s tbl s' m d hnd hm hd hrun
    refine ⟨cell, hget, hl1, hl2, fun t ht => ?_⟩
    obtain ⟨h1, h2⟩ := hpt t ht
    rw [h1, h2]
    exact ⟨rfl, rfl⟩
  · intro e
    exact dimsLoop_error_iff est alpha sqrtFn methods n dims
      (initTable methods dims n junk) s e

/-- Witness for C7 at the scenario configuration: the error case of the run
coincides with the first failing estimator call, and the completed scenario
run is fully populated. -/
theorem C7_all_or_nothing_witness :
    (∀ tbl s', PIs_vs_dimensions constEst ["naive"] (1 / 10 : ℚ) 1 [5] id 0
        onesState = .ok (tbl, s') →
      ∀ m ∈ ["naive"], ∀ d ∈ [5], ∃ cell, getCell tbl m d = some cell ∧
        cell.coverage.length = 1 ∧ cell.width_mean.length = 1 ∧
        ∀ t, t < 1 → (cell.coverage[t]?).isSome ∧ (cell.width_mean[t]?).isSome) ∧
    (∀ e, PIs_vs_dimensions constEst ["naive"] (1 / 10 : ℚ) 1 [5] id 0
        onesState = .error e ↔
      firstError (dimCalls constEst (1 / 10 : ℚ) id ["naive"] 1 [5] onesState) =
        some e) :=
  C7_all_or_nothing constEst ["naive"] (1 / 10 : ℚ) 1 [5] id 0 onesState (by decide)

/-- C9: within a single (dimension, trial) iteration every requested method
is evaluated on the identical dataset: there is one TrialData value, drawn
before the method loop, such that the recorded coverage and width of any two
requested methods are the evaluation of that same dataset by each method. -/
theorem C9_same_dataset [LinearOrderedField α] (est : Estimator α ε)
    (methods : List String) (alpha : α) (n : Nat) (dims : List Nat)
    (sqrtFn : α → α) (junk : α) (s : RngState α) (tbl : ResultTable α)
    (s' : RngState α) (m1 m2 : String) (d : Nat) (t : Nat)
    (hnd : dims.Nodup) (hm1 : m1 ∈ methods) (hm2 : m2 ∈ methods) (hd : d ∈ dims)
    (ht : t < n)
    (hrun : PIs_vs_dimensions est methods alpha n dims sqrtFn junk s = .ok (tbl, s')) :
    ∃ td : TrialData α,
      td = (genTrialData sqrtFn d
        (advance (offsetBefore n dims d + t * consPerTrial d) s)).1 ∧
      (∃ c1, getCell tbl m1 d = some c1 ∧
        c1.coverage[t]? = some (okD (methodEval est alpha m1 td) (0, 0)).1 ∧
        c1.width_mean[t]? = some (okD (methodEval est alpha m1 td) (0, 0)).2) ∧
      (∃ c2, getCell tbl m2 d = some c2 ∧
        c2.coverage[t]? = some (okD (methodEval est alpha m2 td) (0, 0)).1 ∧
        c2.width_mean[t]? = some (okD (methodEval est alpha m2 td) (0, 0)).2) := by
  obtain ⟨c1, hg1, -, -, hpt1⟩ :=
    PIs_cell_char' est methods alpha n dims sqrtFn junk s tbl s' m1 d hnd hm1 hd hrun
  obtain ⟨c2, hg2, -, -, hpt2⟩ :=
    PIs_cell_char' est methods alpha n dims sqrtFn junk s tbl s' m2 d hnd hm2 hd hrun
  obtain ⟨h11, h12⟩ := hpt1 t ht
  obtain ⟨h21, h22⟩ := hpt2 t ht
  exact ⟨_, rfl, ⟨c1, hg1, h11, h12⟩, ⟨c2, hg2, h21, h22⟩⟩

/-- Witness for C9: a concrete two-method, one-trial run in which both
methods' recorded values are the evaluations of the same drawn dataset. -/
theorem C9_same_dataset_witness :
    ∃ td : TrialData ℚ,
      td = (genTrialData id 5 (advance (offsetBefore 1 [5] 5 + 0 * consPerTrial 5)
        onesState)).1 ∧
      (∃ c1, getCell (okD (PIs_vs_dimensions constEst ["naive", "cv"] (1 / 10 : ℚ)
          1 [5] id 0 onesState) (initTable ["naive", "cv"] [5] 1 0, onesState)).1
          "naive" 5 = some c1 ∧
        c1.coverage[0]? = some (okD (methodEval constEst (1 / 10 : ℚ) "naive" td) (0, 0)).1 ∧
        c1.width_mean[0]? = some (okD (methodEval constEst (1 / 10 : ℚ) "naive" td) (0, 0)).2) ∧
      (∃ c2, getCell (okD (PIs_vs_dimensions constEst ["naive", "cv"] (1 / 10 : ℚ)
          1 [5] id 0 onesState) (initTable ["naive", "cv"] [5] 1 0, onesState)).1
          "cv" 5 = some c2 ∧
        c2.coverage[0]? = some (okD (methodEval constEst (1 / 10 : ℚ) "cv" td) (0, 0)).1 ∧
        c2.width_mean[0]? = some (okD (methodEval constEst (1 / 10 : ℚ) "cv" td) (0, 0)).2) :=
  C9_same_dataset constEst ["naive", "cv"] (1 / 10 : ℚ) 1 [5] id 0 onesState
    _ _ "naive" "cv" 5 0 (by decide) (by decide) (by decide) (by decide)
    (by decide) (by rfl)

/-- C4: with the process-wide random source fixed (pointwise-equal streams
at the same cursor) and a deterministic estimator, re-running
PIs_vs_dimensions with an identical configuration yields identical results;
the multi-dimension harness never seeds the source — a completed run leaves
the stream untouched and only advances the cursor by the total consumption —
while the 1D example's get_homoscedastic_data seeds the source
deterministically with seed 59 inside its data generation, so its result is
independent of the incoming random state and its final stream is the
seed-59 stream. -/
theorem C4_reproducibility [LinearOrderedField α] (est : Estimator α ε)
    (methods : List String) (alpha : α) (n : Nat) (dims : List Nat)
    (sqrtFn : α → α) (junk : α) :
    (∀ s₁ s₂ : RngState α, (∀ k, s₁.stream k = s₂.stream k) → s₁.pos = s₂.pos →
      PIs_vs_dimensions est methods alpha n dims sqrtFn junk s₁ =
        PIs_vs_dimensions est methods alpha n dims sqrtFn junk s₂) ∧
    (∀ s tbl s',
      PIs_vs_dimensions est methods alpha n dims sqrtFn junk s = .ok (tbl, s') →
      s'.stream = s.stream ∧ s'.pos = s.pos + totalCons n dims) ∧
    (∀ (seedFam : Nat → Nat → α) (expT : α → α → α) (n_samples n_test1d : Nat)
        (sigma : α) (s₁ s₂ : RngState α),
      Homoscedastic1D.get_homoscedastic_data seedFam expT n_samples n_test1d
          sigma s₁ =
        Homoscedastic1D.get_homoscedastic_data seedFam expT n_samples n_test1d
          sigma s₂ ∧
      (Homoscedastic1D.get_homoscedastic_data seedFam expT n_samples n_test1d
          sigma s₁).2.stream = seedFam 59) := by
  refine ⟨?_, ?_, ?_⟩
  · intro s₁ s₂ hstream hpos
    cases s₁ with
    | mk g1 p1 =>
        cases s₂ with
        | mk g2 p2 =>
            have hg : g1 = g2 := funext hstream
            have hp : p1 = p2 := hpos
            rw [hg, hp]
  · intro s tbl s' hrun
    exact PIs_ok_state est methods alpha n dims sqrtFn junk s tbl s' hrun
  · intro seedFam expT n_samples n_test1d sigma s₁ s₂
    exact ⟨rfl, rfl⟩

/-- Witness for C4: re-running the scenario yields the identical result, and
the scenario's completed run has the untouched stream with the cursor
advanced by the total consumption. -/
theorem C4_reproducibility_witness :
    (PIs_vs_dimensions constEst ["naive"] (1 / 10 : ℚ) 1 [5] id 0 onesState =
      PIs_vs_dimensions constEst ["naive"] (1 / 10 : ℚ) 1 [5] id 0 onesState) ∧
    (scenarioState.stream = onesState.stream ∧
      scenarioState.pos = onesState.pos + totalCons 1 [5]) := by
  obtain ⟨h1, h2, h3⟩ :=
    C4_reproducibility constEst ["naive"] (1 / 10 : ℚ) 1 [5] id 0
  exact ⟨h1 onesState onesState (fun k => rfl) rfl,
    h2 onesState scenarioTable scenarioState (by rfl)⟩

/-- C5 counterexample: with the identity stream and dimension 1, the code's
generator reads the test design matrix at position 301, after both noise
vectors, whereas a generator drawing in the spec's stated order (both design
matrices before the noise) reads it at position 101: the code's draws do not
occur in the spec's stated step order. -/
theorem C5_counterexample :
    (genTrialData (α := ℚ) id 1 idState).1.X_test.headD [] = [(301 : ℚ)] ∧
    (genTrialDataSpecOrder (α := ℚ) id 1 idState).1.X_test.headD [] = [(101 : ℚ)] ∧
    (genTrialData (α := ℚ) id 1 idState).1.X_test ≠
      (genTrialDataSpecOrder (α := ℚ) id 1 idState).1.X_test :=
  ⟨by decide, by decide, by decide⟩

/-- C5 amended: within each trial the random draws occur in the code's
order — coefficient vector first, then the training design matrix, then the
training noise, then the test noise, and the test design matrix last — that
is, the components of genTrialData read the stream at these successive
offsets; the targets equal the design matrix times the coefficient vector
plus the respective noise. -/
theorem C5_draw_order [LinearOrderedField α] (sqrtFn : α → α) (dimension : Nat)
    (s : RngState α) :
    (genTrialData sqrtFn dimension s).1.beta =
      normalizeBeta sqrtFn (npRandomNormalVec dimension s).1 ∧
    (genTrialData sqrtFn dimension s).1.X_train =
      (npRandomNormalMat n_train dimension (advance dimension s)).1 ∧
    (genTrialData sqrtFn dimension s).1.y_train =
      List.zipWith (fun a b => a + b)
        ((genTrialData sqrtFn dimension s).1.X_train.map fun row =>
          npDot row (genTrialData sqrtFn dimension s).1.beta)
        (npRandomNormalVec n_train
          (advance (dimension + n_train * dimension) s)).1 ∧
    (genTrialData sqrtFn dimension s).1.X_test =
      (npRandomNormalMat n_test dimension
        (advance (dimension + n_train * dimension + n_train + n_test) s)).1 ∧
    (genTrialData sqrtFn dimension s).1.y_test =
      List.zipWith (fun a b => a + b)
        ((genTrialData sqrtFn dimension s).1.X_test.map fun row =>
          npDot row (genTrialData sqrtFn dimension s).1.beta)
        (npRandomNormalVec n_test
          (advance (dimension + n_train * dimension + n_train) s)).1 ∧
    (genTrialData sqrtFn dimension s).2 = advance (consPerTrial dimension) s := by
  refine ⟨rfl, rfl, ?_, ?_, ?_, genTrialData_state sqrtFn dimension s⟩
  all_goals
    simp [genTrialData, npRandomNormalVec, npRandomNormalMat, advance, Nat.add_assoc]

/-- C6: for every dimension d ≥ 1 and every nonzero drawn coefficient
vector, the normalized coefficient vector of line 88 has Euclidean norm
exactly the square root of 10, the fixed signal-to-noise ratio,
independently of the dimension. -/
theorem C6_normalized_norm (dimension : Nat) (hdim : 1 ≤ dimension)
    (beta0 : List ℝ) (hlen : beta0.length = dimension)
    (hnz : ∃ b ∈ beta0, b ≠ 0) :
    Real.sqrt (((normalizeBeta Real.sqrt beta0).map fun b => b ^ 2).sum) =
      Real.sqrt 10 := by
  have hS : 0 < (beta0.map fun b => b ^ 2).sum := sum_map_sq_pos beta0 hnz
  have hSNR : ((SNR : ℕ) : ℝ) = 10 := by norm_num [SNR]
  have hnorm : betaNorm Real.sqrt beta0 =
      Real.sqrt ((beta0.map fun b => b ^ 2).sum) := rfl
  have hmap : (normalizeBeta Real.sqrt beta0).map (fun b => b ^ 2) =
      beta0.map fun b => b ^ 2 * (10 / (beta0.map fun b => b ^ 2).sum) := by
    rw [normalizeBeta, List.map_map]
    refine List.map_congr_left fun b hb => ?_
    simp only [Function.comp]
    rw [hnorm, hSNR, mul_pow, div_pow,
      Real.sq_sqrt hS.le, Real.sq_sqrt (by norm_num : (0 : ℝ) ≤ 10)]
    ring
  rw [hmap, List.sum_map_mul_right,
    show ((beta0.map fun b => b ^ 2).sum *
        (10 / (beta0.map fun b => b ^ 2).sum)) = 10 from by field_simp]

/-- Witness for C6 at the concrete coefficient vector [3, 4] in dimension 2. -/
theorem C6_normalized_norm_witness :
    Real.sqrt (((normalizeBeta Real.sqrt [(3 : ℝ), 4]).map fun b => b ^ 2).sum) =
      Real.sqrt 10 :=
  C6_normalized_norm 2 (by norm_num) [(3 : ℝ), 4] (by simp)
    ⟨3, by simp, by norm_num⟩

/-- C10: the normalization of line 88 divides by the norm of line 87 with no
guard against zero: the divisor is nonzero under the precondition that the
drawn coefficient vector is not the zero vector, and on a vector all of
whose entries are zero — in particular the zero vector of any dimension —
the computation divides by zero, the divisor evaluating to 0. -/
theorem C10_zero_guard :
    (∀ beta0 : List ℝ, (∃ b ∈ beta0, b ≠ 0) → betaNorm Real.sqrt beta0 ≠ 0) ∧
    (∀ beta0 : List ℝ, (∀ b ∈ beta0, b = 0) → betaNorm Real.sqrt beta0 = 0) ∧
    (∀ dimension : Nat,
      betaNorm Real.sqrt (List.replicate dimension (0 : ℝ)) = 0) := by
  have hzero : ∀ beta0 : List ℝ, (∀ b ∈ beta0, b = 0) →
      betaNorm Real.sqrt beta0 = 0 := by
    intro beta0 h
    have hsum : ((beta0.map fun b => b ^ 2).sum) = 0 :=
      List.sum_eq_zero fun x hx => by
        obtain ⟨b, hb, rfl⟩ := List.mem_map.mp hx
        rw [h b hb]
        ring
    simp only [betaNorm, hsum, Real.sqrt_zero]
  refine ⟨?_, hzero, ?_⟩
  · intro beta0 hnz
    have hS := sum_map_sq_pos beta0 hnz
    simp only [betaNorm]
    exact ne_of_gt (Real.sqrt_pos.mpr hS)
  · intro dimension
    exact hzero _ fun b hb => List.eq_of_mem_replicate hb

/-- Witness for C10 at the vectors [3, 4] and the zero vector of
dimension 2. -/
theorem C10_zero_guard_witness :
    betaNorm Real.sqrt [(3 : ℝ), 4] ≠ 0 ∧
    betaNorm Real.sqrt (List.replicate 2 (0 : ℝ)) = 0 :=
  ⟨C10_zero_guard.1 [(3 : ℝ), 4] ⟨3, by simp, by norm_num⟩,
   C10_zero_guard.2.2 2⟩

theorem zipWith_indicator_mem [LinearOrderedField α] {β γ : Type}
    (P : β → γ → Prop) [inst : ∀ b c, Decidable (P b c)] (l₁ : List β)
    (l₂ : List γ) :
    ∀ x ∈ List.zipWith (fun b c => if P b c then (1 : α) else 0) l₁ l₂,
      x = 0 ∨ x = 1 := by
  induction l₁ generalizing l₂ with
  | nil => simp
  | cons b rest ih =>
      cases l₂ with
      | nil => simp
      | cons c rest2 =>
          intro x hx
          rw [List.zipWith_cons_cons] at hx
          cases List.mem_cons.mp hx with
          | inl h =>
              by_cases hP : P b c
              · right
                rw [h, if_pos hP]
              · left
                rw [h, if_neg hP]
          | inr h => exact ih rest2 x h

/-- The counterexample run for the width sign: one method, one trial,
dimension 1, with the interval-inverting estimator. -/
def c3Run : Except String (ResultTable ℚ × RngState ℚ) :=
  PIs_vs_dimensions badEst ["naive"] (1 / 10 : ℚ) 1 [1] id 0 onesState

/-- C3 counterexample: with an estimator whose prediction rows invert the
bounds (lower 1 above upper 0) the completed run stores the width_mean -1 at
("naive", 1, trial 0), and -1 is not ≥ 0: width_mean values are not
nonnegative for every value the external estimator may return. -/
theorem C3_counterexample :
    ((getCell (okD c3Run (initTable ["naive"] [1] 1 0, onesState)).1 "naive" 1).map
      fun cell => cell.width_mean[0]?) = some (some (-1 : ℚ)) ∧
    ¬(0 : ℚ) ≤ (-1 : ℚ) := by
  constructor
  · set_option maxRecDepth 100000 in with_unfolding_all decide
  · decide

/-- C3 amended: every coverage value a completed run stores lies in [0, 1],
for every estimator; a stored width_mean value is ≥ 0 provided the
estimator's prediction rows for that cell's call satisfy lower ≤ upper —
a condition the code does not enforce, without which the stored width can be
negative. -/
theorem C3_value_bounds [LinearOrderedField α] (est : Estimator α ε)
    (methods : List String) (alpha : α) (n : Nat) (dims : List Nat)
    (sqrtFn : α → α) (junk : α) (s : RngState α) (tbl : ResultTable α)
    (s' : RngState α) (m : String) (d : Nat) (t : Nat)
    (hnd : dims.Nodup) (hm : m ∈ methods) (hd : d ∈ dims) (ht : t < n)
    (hrun : PIs_vs_dimensions est methods alpha n dims sqrtFn junk s = .ok (tbl, s')) :
    (∀ cell c, getCell tbl m d = some cell → cell.coverage[t]? = some c →
      0 ≤ c ∧ c ≤ 1) ∧
    (∀ preds cell w,
      est ⟨alpha, m, 10, false, "ensemble"⟩
          (genTrialData sqrtFn d
            (advance (offsetBefore n dims d + t * consPerTrial d) s)).1.X_train
          (genTrialData sqrtFn d
            (advance (offsetBefore n dims d + t * consPerTrial d) s)).1.y_train
          (genTrialData sqrtFn d
            (advance (offsetBefore n dims d + t * consPerTrial d) s)).1.X_test
        = .ok preds →
      (∀ p ∈ preds, p.2.1 ≤ p.2.2) →
      getCell tbl m d = some cell → cell.width_mean[t]? = some w → 0 ≤ w) := by
  obtain ⟨cell0, hget0, -, -, hpt⟩ :=
    PIs_cell_char' est methods alpha n dims sqrtFn junk s tbl s' m d hnd hm hd hrun
  obtain ⟨hc0, hw0⟩ := hpt t ht
  constructor
  · intro cell c hget hc
    rw [hget0] at hget
    injection hget with hget
    subst hget
    rw [hc0] at hc
    injection hc with hc
    subst hc
    rw [trialValue]
    cases hcall : methodEval est alpha m (genTrialData sqrtFn d
        (advance (offsetBefore n dims d + t * consPerTrial d) s)).1 with
    | error e => simp
    | ok v =>
        rw [okD_ok]
        rw [methodEval] at hcall
        cases hest : est ⟨alpha, m, 10, false, "ensemble"⟩
            (genTrialData sqrtFn d
              (advance (offsetBefore n dims d + t * consPerTrial d) s)).1.X_train
            (genTrialData sqrtFn d
              (advance (offsetBefore n dims d + t * consPerTrial d) s)).1.y_train
            (genTrialData sqrtFn d
              (advance (offsetBefore n dims d + t * consPerTrial d) s)).1.X_test with
        | error e => rw [hest] at hcall; cases hcall
        | ok preds =>
            rw [hest] at hcall
            injection hcall with hcall
            rw [← hcall]
            exact npMean_indicator_bounds _
              (zipWith_indicator_mem (fun p y => p.2.1 ≤ y ∧ y ≤ p.2.2) preds _)
  · intro preds cell w hest hord hget hw
    rw [hget0] at hget
    injection hget with hget
    subst hget
    rw [hw0] at hw
    injection hw with hw
    subst hw
    rw [trialValue, methodEval, hest, okD_ok]
    exact npMean_nonneg _ fun x hx => by
      obtain ⟨p, hp, rfl⟩ := List.mem_map.mp hx
      exact sub_nonneg.mpr (hord p hp)

/-- Witness for C3 amended, at the scenario run whose estimator returns the
ordered interval [0, 20] for every row. -/
theorem C3_value_bounds_witness :
    (∀ cell c, getCell scenarioTable "naive" 5 = some cell →
      cell.coverage[0]? = some c → 0 ≤ c ∧ c ≤ 1) ∧
    (∀ preds cell w,
      constEst ⟨(1 / 10 : ℚ), "naive", 10, false, "ensemble"⟩
          (genTrialData id 5
            (advance (offsetBefore 1 [5] 5 + 0 * consPerTrial 5) onesState)).1.X_train
          (genTrialData id 5
            (advance (offsetBefore 1 [5] 5 + 0 * consPerTrial 5) onesState)).1.y_train
          (genTrialData id 5
            (advance (offsetBefore 1 [5] 5 + 0 * consPerTrial 5) onesState)).1.X_test
        = .ok preds →
      (∀ p ∈ preds, p.2.1 ≤ p.2.2) →
      getCell scenarioTable "naive" 5 = some cell →
      cell.width_mean[0]? = some w → 0 ≤ w) :=
  C3_value_bounds constEst ["naive"] (1 / 10 : ℚ) 1 [5] id 0 onesState
    scenarioTable scenarioState "naive" 5 0
    (by decide) (by decide) (by decide) (by decide) (by rfl)

/-- C2: for a completed run and a requested (method, dimension, trial) cell
whose estimator call returned the prediction rows preds — one row per test
point, 100 of them — the recorded coverage equals the number of test points
whose true target y lies within the inclusive interval [row lower, row
upper] (components 1 and 2 of the row) divided by 100, and the recorded
width_mean equals the sum over rows of (upper - lower) divided by 100. -/
theorem C2_coverage_width [LinearOrderedField α] (est : Estimator α ε)
    (methods : List String) (alpha : α) (n : Nat) (dims : List Nat)
    (sqrtFn : α → α) (junk : α) (s : RngState α) (tbl : ResultTable α)
    (s' : RngState α) (m : String) (d : Nat) (t : Nat)
    (preds : List (α × α × α))
    (hnd : dims.Nodup) (hm : m ∈ methods) (hd : d ∈ dims) (ht : t < n)
    (hrun : PIs_vs_dimensions est methods alpha n dims sqrtFn junk s = .ok (tbl, s'))
    (hpred : est ⟨alpha, m, 10, false, "ensemble"⟩
        (genTrialData sqrtFn d
          (advance (offsetBefore n dims d + t * consPerTrial d) s)).1.X_train
        (genTrialData sqrtFn d
          (advance (offsetBefore n dims d + t * consPerTrial d) s)).1.y_train
        (genTrialData sqrtFn d
          (advance (offsetBefore n dims d + t * consPerTrial d) s)).1.X_test
        = .ok preds)
    (hlen : preds.length = 100) :
    ∃ cell, getCell tbl m d = some cell ∧
      cell.coverage[t]? = some
        ((((preds.zip (genTrialData sqrtFn d
              (advance (offsetBefore n dims d + t * consPerTrial d) s)).1.y_test).countP
            fun py => decide (py.1.2.1 ≤ py.2 ∧ py.2 ≤ py.1.2.2) : ℕ) : α) / 100) ∧
      cell.width_mean[t]? = some
        ((preds.map fun p => p.2.2 - p.2.1).sum / 100) := by
  obtain ⟨cell, hget, -, -, hpt⟩ :=
    PIs_cell_char' est methods alpha n dims sqrtFn junk s tbl s' m d hnd hm hd hrun
  obtain ⟨h1, h2⟩ := hpt t ht
  have hy : (genTrialData sqrtFn d
      (advance (offsetBefore n dims d + t * consPerTrial d) s)).1.y_test.length = 100 :=
    genTrialData_y_test_length sqrtFn d _
  refine ⟨cell, hget, ?_, ?_⟩
  · rw [h1]
    simp only [trialValue, methodEval, hpred, okD_ok]
    rw [npMean,
      sum_indicator_eq_countP (fun (p : α × α × α) (y : α) =>
        p.2.1 ≤ y ∧ y ≤ p.2.2) preds _,
      List.length_zipWith, hlen, hy]
    norm_num
  · rw [h2]
    simp only [trialValue, methodEval, hpred, okD_ok]
    rw [npMean, List.length_map, hlen]
    norm_num

/-- Witness for C2 at the scenario run: the estimator answers the interval
[0, 20] on every row, and the stored coverage and width are the covered
fraction and the mean width over the 100 test points. -/
theorem C2_coverage_width_witness :
    ∃ cell, getCell scenarioTable "naive" 5 = some cell ∧
      cell.coverage[0]? = some
        (((((genTrialData (α := ℚ) id 5 (advance (offsetBefore 1 [5] 5 +
                0 * consPerTrial 5) onesState)).1.X_test.map
              fun _ => ((0 : ℚ), 0, 20)).zip
            (genTrialData (α := ℚ) id 5 (advance (offsetBefore 1 [5] 5 +
                0 * consPerTrial 5) onesState)).1.y_test).countP
            (fun py => decide (py.1.2.1 ≤ py.2 ∧ py.2 ≤ py.1.2.2)) : ℚ) / 100) ∧
      cell.width_mean[0]? = some
        ((((genTrialData (α := ℚ) id 5 (advance (offsetBefore 1 [5] 5 +
              0 * consPerTrial 5) onesState)).1.X_test.map
            fun _ => ((0 : ℚ), 0, 20)).map fun p => p.2.2 - p.2.1).sum / 100) :=
  C2_coverage_width constEst ["naive"] (1 / 10 : ℚ) 1 [5] id 0 onesState
    scenarioTable scenarioState "naive" 5 0
    ((genTrialData (α := ℚ) id 5 (advance (offsetBefore 1 [5] 5 +
        0 * consPerTrial 5) onesState)).1.X_test.map fun _ => ((0 : ℚ), 0, 20))
    (by decide) (by decide) (by decide) (by decide) (by rfl) (by rfl)
    (by decide)

/-- C8: plot_simulation_results only reads the result table: the table after
the call is the very table passed in, every cell lookup is unchanged, and
calling the panel-data computation twice on the same table yields equal
panel data. -/
theorem C8_plot_no_mutation [LinearOrderedField α] (sqrtFn : α → α)
    (ntrial : Nat) (results : ResultTable α) :
    (plot_simulation_results sqrtFn ntrial results).2 = results ∧
    (∀ m d, getCell (plot_simulation_results sqrtFn ntrial results).2 m d =
      getCell results m d) ∧
    (plot_simulation_results sqrtFn ntrial
        ((plot_simulation_results sqrtFn ntrial results).2)).1 =
      (plot_simulation_results sqrtFn ntrial results).1 :=
  ⟨rfl, fun m d => rfl, rfl⟩

end Barber2020

end MapieExamples
